import Mathlib

/-!
FFTApp CPU reference code: shallow embedding and verification.

Source: `src/APP/CPUCode/FftAppCpuCode.c`.

Modelling conventions.

* A C buffer (`float complex *`) is a `List K`; a read or write outside the
  buffer makes the operation return `none`.  `mallocWrapper` is assumed to
  succeed (on failure the program exits).
* `float complex` is an abstract scalar type `K`; the theorems take `K = ℂ`
  (exact arithmetic, rounding abstracted).  The libm / complex.h primitives
  used by the code (`cexpf`, `creal`, `cimag`, `log10`) are parameters of the
  definitions, so that the definitions stay executable; the theorems
  instantiate them with `Complex.exp`, `Complex.re`, `Complex.im` and
  `Real.logb 10`.
* `int` arguments are `ℤ` where the sign matters (`n`, `size`); the
  configuration constants `FftApp_L`, `FftApp_M`, `FftApp_N` and the
  dimensions of `transposeData` are natural numbers.
* The `double` values of `check` are exact reals (the sums `S` and `N`) or one
  of the IEEE 754 special values (type `Dbl`), so that `S / N` with `N = 0`
  behaves as it does in C.
* Where a statement depends on single precision rounding, the scalar type is
  `FloatComplex`: two binary32 numbers, every `+`, `-`, `*` rounded to nearest,
  ties to even (`roundNearestEven 24`).
-/

namespace FftApp

/-! ## Loops and buffers -/

/-- A counted loop `for (int i = 0; i < n; i++) body(i)` over a state:
`n` iterations are `n - 1` iterations followed by the body at `i = n - 1`.
A failing body (out of range access) makes the whole loop fail. -/
def forLoop {σ : Type} (n : ℕ) (body : ℕ → σ → Option σ) (s : σ) : Option σ :=
  match n with
  | 0 => some s
  | m + 1 => (forLoop m body s).bind (body m)

/-- A freshly allocated array of `n` cells filled by
`for (int i = 0; i < n; i++) a[i] = f(i)`; fails when some `f i` fails. -/
def allocFill {β : Type} (n : ℕ) (f : ℕ → Option β) : Option (List β) :=
  match n with
  | 0 => some []
  | m + 1 => (allocFill m f).bind fun xs => (f m).bind fun x => some (xs ++ [x])

/-- The write `a[i] = x`; fails when `i` is outside the buffer. -/
def store {β : Type} (a : List β) (i : ℕ) (x : β) : Option (List β) :=
  if i < a.length then some (a.set i x) else none

/-- The call `memcpy(dst, src, n * sizeof(float complex))`: the first `n` cells
of `dst` receive the first `n` cells of `src`; fails when either buffer is
shorter than `n`. -/
def memcpy {β : Type} (dst src : List β) (n : ℤ) : Option (List β) :=
  if 0 ≤ n ∧ n ≤ src.length ∧ n ≤ dst.length then
    some (src.take n.toNat ++ dst.drop n.toNat)
  else none

/-- The loop `for (int i = 0; i < n; i++) F(a[i])` for a callee `F` that
rewrites the array (or buffer) `a[i]` it is handed. -/
def forEachRow {β : Type} (n : ℕ) (F : β → Option β) (a : List β) : Option (List β) :=
  forLoop n (fun i d => d[i]?.bind fun row => (F row).bind fun row1 => store d i row1) a

/-- The loop `for (int i = 0; i < n; i++) free(a[i])`: only the reads of
`a[i]` are modelled. -/
def freeRows {β : Type} (n : ℕ) (a : List β) : Option Unit :=
  forLoop n (fun i _ => a[i]?.bind fun _ => some ()) ()

/-! ## fftCPU (lines 97-124) -/

section Kernel

variable {K : Type} [Add K] [Sub K] [Mul K]

/-- The combine loop of `fftCPU` (lines 114-118); `h` is `n / 2`. -/
def combine (expFactor : ℕ → ℤ → K) (n : ℤ) (h : ℕ) (g u values : List K) :
    Option (List K) :=
  forLoop h (fun k vals =>
    g[k]?.bind fun gk =>
    u[k]?.bind fun uk =>
    (store vals k (gk + uk * expFactor k n)).bind fun vals1 =>
    store vals1 (k + h) (gk - uk * expFactor k n)) values

/-- The function `fftCPU(n, values)`, returning the final contents of `values`.
`expFactor k n` stands for `cexpf(-2.0 * M_PI * I * k / n)`. -/
def fftCPU (expFactor : ℕ → ℤ → K) (n : ℤ) (values : List K) : Option (List K) :=
  if 1 < n then
    (allocFill (n / 2).toNat fun i => values[i * 2]?).bind fun g =>
    (allocFill (n / 2).toNat fun i => values[i * 2 + 1]?).bind fun u =>
    (fftCPU expFactor (n / 2) g).bind fun g1 =>
    (fftCPU expFactor (n / 2) u).bind fun u1 =>
    combine expFactor n (n / 2).toNat g1 u1 values
  else some values
termination_by n.toNat
decreasing_by all_goals omega

/-- The function `fftCPU` instrumented with its recursion depth: the second
component is the number of nested `fftCPU` calls below this one, 0 when the
guard `n > 1` fails and otherwise one more than the deeper of the two calls of
lines 110-111. -/
def fftCPUDepth (expFactor : ℕ → ℤ → K) (n : ℤ) (values : List K) :
    Option (List K × ℕ) :=
  if 1 < n then
    (allocFill (n / 2).toNat fun i => values[i * 2]?).bind fun g =>
    (allocFill (n / 2).toNat fun i => values[i * 2 + 1]?).bind fun u =>
    (fftCPUDepth expFactor (n / 2) g).bind fun g1 =>
    (fftCPUDepth expFactor (n / 2) u).bind fun u1 =>
    (combine expFactor n (n / 2).toNat g1.1 u1.1 values).map fun out =>
      (out, 1 + max g1.2 u1.2)
  else some (values, 0)
termination_by n.toNat
decreasing_by all_goals omega

end Kernel

/-! ## transposeData (lines 133-148) -/

/-- The function `transposeData(firstDimension, secondDimension, &data)`,
returning the array that replaces `*data`. `newData[i][j] = (*data)[j][i]`. -/
def transposeData {K : Type} (firstDimension secondDimension : ℕ)
    (data : List (List K)) : Option (List (List K)) :=
  (allocFill firstDimension fun i =>
    allocFill secondDimension fun j =>
      data[j]?.bind fun row => row[i]?).bind fun newData =>
  (freeRows secondDimension data).bind fun _ =>
  some newData

/-! ## fftCPUWrapper (lines 160-268) -/

section Wrapper

variable {K : Type} [Add K] [Sub K] [Mul K]

/-- The 1-D branch (lines 162-163), returning the final `expectedData`. -/
def fftCPUWrapper1D (expFactor : ℕ → ℤ → K) (size : ℤ)
    (inputData expectedData : List K) : Option (List K) :=
  (memcpy expectedData inputData size).bind fun expectedData1 =>
  fftCPU expFactor size expectedData1

/-- The 2-D branch (lines 165-199), returning the final `expectedData`. -/
def fftCPUWrapper2D (expFactor : ℕ → ℤ → K) (FftApp_M FftApp_N : ℕ)
    (inputData expectedData : List K) : Option (List K) :=
  -- copy into a two dimensional array
  (allocFill FftApp_M fun i =>
    allocFill FftApp_N fun j => inputData[i * FftApp_N + j]?).bind fun d0 =>
  -- fft on each row
  (forEachRow FftApp_M (fftCPU expFactor FftApp_N) d0).bind fun d1 =>
  -- transpose
  (transposeData FftApp_N FftApp_M d1).bind fun d2 =>
  -- fft on each column
  (forEachRow FftApp_N (fftCPU expFactor FftApp_M) d2).bind fun d3 =>
  -- transpose back
  (transposeData FftApp_M FftApp_N d3).bind fun d4 =>
  (forLoop FftApp_M (fun i e =>
    forLoop FftApp_N (fun j e1 =>
      d4[i]?.bind fun row => row[j]?.bind fun x =>
      store e1 (i * FftApp_N + j) x) e) expectedData).bind fun expectedData1 =>
  (freeRows FftApp_M d4).bind fun _ =>
  some expectedData1

/-- The write `a[k][i][j] = x` into a three dimensional array. -/
def store3 {β : Type} (a : List (List (List β))) (k i j : ℕ) (x : β) :
    Option (List (List (List β))) :=
  a[k]?.bind fun plane => plane[i]?.bind fun row =>
  (store row j x).bind fun row1 => (store plane i row1).bind fun plane1 =>
  store a k plane1

/-- The 3-D branch (lines 201-266), returning the final `expectedData`. -/
def fftCPUWrapper3D (expFactor : ℕ → ℤ → K) (FftApp_L FftApp_M FftApp_N : ℕ)
    (inputData expectedData : List K) : Option (List K) :=
  -- copy into a three dimensional array
  (allocFill FftApp_L fun i =>
    allocFill FftApp_M fun j =>
      allocFill FftApp_N fun k =>
        inputData[i * FftApp_N * FftApp_M + j * FftApp_N + k]?).bind fun d0 =>
  -- fft on each row
  (forEachRow FftApp_L (forEachRow FftApp_M (fftCPU expFactor FftApp_N)) d0).bind fun d1 =>
  -- transpose N and M dimension
  (forEachRow FftApp_L (transposeData FftApp_N FftApp_M) d1).bind fun d2 =>
  -- fft on each column
  (forEachRow FftApp_L (forEachRow FftApp_N (fftCPU expFactor FftApp_M)) d2).bind fun d3 =>
  -- transpose N and M dimension back
  (forEachRow FftApp_L (transposeData FftApp_M FftApp_N) d3).bind fun d4 =>
  -- fft in the L dimension; `buffer` is written in full before each use
  (forLoop FftApp_M (fun i d =>
    forLoop FftApp_N (fun j dd =>
      (allocFill FftApp_L fun k =>
        dd[k]?.bind fun plane => plane[i]?.bind fun row => row[j]?).bind fun buffer =>
      (fftCPU expFactor FftApp_L buffer).bind fun buffer1 =>
      forLoop FftApp_L (fun k ddd =>
        buffer1[k]?.bind fun x => store3 ddd k i j x) dd) d) d4).bind fun d5 =>
  (forLoop FftApp_L (fun i e =>
    forLoop FftApp_M (fun j e1 =>
      forLoop FftApp_N (fun k e2 =>
        d5[i]?.bind fun plane => plane[j]?.bind fun row => row[k]?.bind fun x =>
        store e2 (i * FftApp_N * FftApp_M + j * FftApp_N + k) x) e1) e)
    expectedData).bind fun expectedData1 =>
  (forLoop FftApp_L (fun i _ =>
    d5[i]?.bind fun plane => freeRows FftApp_M plane) ()).bind fun _ =>
  some expectedData1

/-- The function `fftCPUWrapper(size, inputData, expectedData)` for the
configuration constants `FftApp_L`, `FftApp_M`, `FftApp_N`; returns the final
contents of `inputData` and of `expectedData`. -/
def fftCPUWrapper (expFactor : ℕ → ℤ → K) (FftApp_L FftApp_M FftApp_N : ℕ) (size : ℤ)
    (inputData expectedData : List K) : Option (List K × List K) :=
  if FftApp_M = 1 then
    (fftCPUWrapper1D expFactor size inputData expectedData).map fun e => (inputData, e)
  else if FftApp_L = 1 then
    (fftCPUWrapper2D expFactor FftApp_M FftApp_N inputData expectedData).map
      fun e => (inputData, e)
  else
    (fftCPUWrapper3D expFactor FftApp_L FftApp_M FftApp_N inputData expectedData).map
      fun e => (inputData, e)

end Wrapper

/-! ## check (lines 36-66) -/

/-- A C `double` with rounding abstracted: a finite value carries an exact
scalar; the IEEE 754 special values are kept. Zero stands for `+0.0`. -/
inductive Dbl (F : Type) where
  | fin (x : F)
  | pinf
  | ninf
  | nan
  deriving DecidableEq

namespace Dbl

variable {F : Type} [LinearOrderedField F]

/-- IEEE 754 division. -/
def div : Dbl F → Dbl F → Dbl F
  | fin x, fin y =>
      if y ≠ 0 then fin (x / y)
      else if 0 < x then pinf else if x < 0 then ninf else nan
  | fin _, pinf => fin 0
  | fin _, ninf => fin 0
  | pinf, fin y => if 0 ≤ y then pinf else ninf
  | ninf, fin y => if 0 ≤ y then ninf else pinf
  | _, _ => nan

/-- IEEE 754 multiplication. -/
def mul : Dbl F → Dbl F → Dbl F
  | fin x, fin y => fin (x * y)
  | fin x, pinf => if 0 < x then pinf else if x < 0 then ninf else nan
  | fin x, ninf => if 0 < x then ninf else if x < 0 then pinf else nan
  | pinf, fin y => if 0 < y then pinf else if y < 0 then ninf else nan
  | ninf, fin y => if 0 < y then ninf else if y < 0 then pinf else nan
  | pinf, pinf => pinf
  | pinf, ninf => ninf
  | ninf, pinf => ninf
  | ninf, ninf => pinf
  | _, _ => nan

/-- The libm function `log10` on the special values (C11 F.10.3.8); on a
positive finite argument it is the parameter `log10`. -/
def log10 (log10 : F → F) : Dbl F → Dbl F
  | fin x => if 0 < x then fin (log10 x) else if x = 0 then ninf else nan
  | pinf => pinf
  | ninf => nan
  | nan => nan

/-- The comparison `a < b` of two doubles; false when either is a NaN. -/
def lt : Dbl F → Dbl F → Bool
  | fin x, fin y => decide (x < y)
  | fin _, pinf => true
  | ninf, fin _ => true
  | ninf, pinf => true
  | _, _ => false

end Dbl

section Check

variable {K F : Type} [Sub K] [LinearOrderedField F]

/-- The accumulation loop of `check` (lines 42-50): the state is `(S, N)`. -/
def snrSums (creal cimag : K → F) (size : ℤ) (expected result : List K) :
    Option (F × F) :=
  forLoop size.toNat (fun i acc =>
    result[i]?.bind fun res =>
    expected[i]?.bind fun exp =>
    let err := exp - res
    some (acc.1 + (creal exp * creal exp + cimag exp * cimag exp),
          acc.2 + (creal err * creal err + cimag err * cimag err))) (0, 0)

/-- The function `check(size, expected, result)`; the printing (which reads
the same cells once more) is left out. -/
def check (creal cimag : K → F) (log10 : F → F) (size : ℤ)
    (expected result : List K) : Option ℤ :=
  (snrSums creal cimag size expected result).bind fun acc =>
  let SNR := Dbl.mul (Dbl.fin 10) (Dbl.log10 log10 (Dbl.div (Dbl.fin acc.1) (Dbl.fin acc.2)))
  some (if Dbl.lt SNR (Dbl.fin 69) then 1 else 0)

end Check

/-! ## generateTestData (lines 74-88) -/

section TestData

variable {K F : Type} [DivisionRing F]

/-- The function `generateTestData(size, data)`, returning the final contents
of `data`. `rand k` is the value of the `k`-th call of `rand()` after
`srand(time(NULL))` (each iteration makes four calls), `mkComplex re im` is
`re + I * im` and `ofInt i` the conversion of the `int` `i` to `float complex`. -/
def generateTestData (mkComplex : F → F → K) (ofInt : ℤ → K) (RAND_MAX : ℤ)
    (rand : ℕ → ℤ) (size : ℤ) (data : List K) : Option (List K) :=
  forLoop size.toNat (fun i d =>
    let real : F := (rand (4 * i) : F) / (RAND_MAX : F) * 10
    let imag : F := (rand (4 * i + 1) : F) / (RAND_MAX : F) * 10
    let signReal : ℤ := Int.tmod (rand (4 * i + 2)) 2
    let signImag : ℤ := Int.tmod (rand (4 * i + 3)) 2
    let real1 : F := if signReal = 0 then real else -real
    let imag1 : F := if signImag = 0 then imag else -imag
    (store d i (mkComplex real1 imag1)).bind fun d1 =>
    store d1 i (ofInt (i : ℤ))) data

end TestData

/-! ## Single precision arithmetic -/

/-- Rounding of the rational `q` to the nearest number with `p` significant
bits, ties to even: the rounding of IEEE 754 arithmetic, binary32 for `p = 24`.
The exponent range is unbounded, so overflow, subnormal numbers, infinities
and NaN are left out. -/
def roundNearestEven (p : ℕ) (q : ℚ) : ℚ :=
  if q = 0 then 0 else
    let ulp : ℚ := (2 : ℚ) ^ (Int.log 2 |q| - ((p : ℤ) - 1))
    let m : ℚ := |q| / ulp
    let f : ℤ := ⌊m⌋
    let m1 : ℤ :=
      if m - f < 1 / 2 then f
      else if 1 / 2 < m - f then f + 1
      else if f % 2 = 0 then f else f + 1
    (if q < 0 then -1 else 1) * (m1 : ℚ) * ulp

/-- A `float complex` value as the machine holds it: two binary32 numbers. -/
structure FloatComplex where
  re : ℚ
  im : ℚ
  deriving DecidableEq

/-- The sum of two `float complex` values: each part is rounded to binary32. -/
instance : Add FloatComplex :=
  ⟨fun a b => ⟨roundNearestEven 24 (a.re + b.re), roundNearestEven 24 (a.im + b.im)⟩⟩

/-- The difference of two `float complex` values. -/
instance : Sub FloatComplex :=
  ⟨fun a b => ⟨roundNearestEven 24 (a.re - b.re), roundNearestEven 24 (a.im - b.im)⟩⟩

/-- The product of two `float complex` values, `(ac - bd) + (ad + bc) i` with
every operation rounded to binary32. -/
instance : Mul FloatComplex :=
  ⟨fun a b =>
    ⟨roundNearestEven 24
        (roundNearestEven 24 (a.re * b.re) - roundNearestEven 24 (a.im * b.im)),
      roundNearestEven 24
        (roundNearestEven 24 (a.re * b.im) + roundNearestEven 24 (a.im * b.re))⟩⟩

/-! ## Specification vocabulary -/

/-- The list `[f 0, ..., f (n - 1)]`. -/
def tab {β : Type} (n : ℕ) (f : ℕ → β) : List β := (List.range n).map f

/-- The three dimensional array with `h k i j` in cell `[k][i][j]`. -/
def tab3 {β : Type} (L M N : ℕ) (h : ℕ → ℕ → ℕ → β) : List (List (List β)) :=
  tab L fun k => tab M fun i => tab N fun j => h k i j

/-- What `fftCPU(n, .)` leaves in cell `j` of a buffer that held
`f 0, ..., f (n - 1)` (`d` when the call fails or `j` is out of range). -/
def fftFun {K : Type} [Add K] [Sub K] [Mul K] (w : ℕ → ℤ → K) (n : ℕ) (d : K)
    (f : ℕ → K) (j : ℕ) : K :=
  ((fftCPU w (n : ℤ) (tab n f)).getD []).getD j d

/-- The length-`n` DFT sum at frequency `j` of the samples `f 0, ..., f (n-1)`,
with `w a n` standing for `exp(-2 pi i a / n)`. -/
def dftSum {K : Type} [CommRing K] (w : ℕ → ℤ → K) (n : ℕ) (f : ℕ → K) (j : ℕ) : K :=
  ∑ t ∈ Finset.range n, f t * w (j * t) (n : ℤ)

/-- The algebraic facts about the twiddle factors `w a n = exp(-2 pi i a / n)`
that the radix-2 recursion relies on. -/
structure IsTwiddle {K : Type} [CommRing K] (w : ℕ → ℤ → K) : Prop where
  add : ∀ (a b : ℕ) (n : ℤ), w (a + b) n = w a n * w b n
  double : ∀ (a h : ℕ), 0 < h → w (2 * a) ((2 * h : ℕ) : ℤ) = w a (h : ℤ)
  period : ∀ (s h : ℕ), 0 < h → w (h * s) (h : ℤ) = 1
  half : ∀ (h : ℕ), 0 < h → w h ((2 * h : ℕ) : ℤ) = -1

/-! ## Loop and buffer lemmas -/

@[simp] theorem tab_length {β : Type} (n : ℕ) (f : ℕ → β) : (tab n f).length = n := by
  simp [tab]

theorem tab_getElem? {β : Type} (n : ℕ) (f : ℕ → β) (i : ℕ) :
    (tab n f)[i]? = if i < n then some (f i) else none := by
  unfold tab
  by_cases h : i < n
  · simp [h, List.getElem?_range h]
  · have h1 : (List.map f (List.range n)).length ≤ i := by simp; omega
    simp [h, List.getElem?_eq_none h1]

theorem tab_getElem?_lt {β : Type} {n : ℕ} (f : ℕ → β) {i : ℕ} (h : i < n) :
    (tab n f)[i]? = some (f i) := by
  rw [tab_getElem?, if_pos h]

theorem tab_succ {β : Type} (n : ℕ) (f : ℕ → β) : tab (n + 1) f = tab n f ++ [f n] := by
  simp [tab, List.range_succ]

theorem tab_congr {β : Type} {n : ℕ} {f g : ℕ → β} (h : ∀ i, i < n → f i = g i) :
    tab n f = tab n g := by
  apply List.ext_getElem?
  intro i
  rw [tab_getElem?, tab_getElem?]
  by_cases hi : i < n
  · simp [hi, h i hi]
  · simp [hi]

theorem eq_tab_of_getElem? {β : Type} {n : ℕ} {l : List β} {f : ℕ → β}
    (hl : l.length = n) (h : ∀ i, i < n → l[i]? = some (f i)) : l = tab n f := by
  apply List.ext_getElem?
  intro i
  rw [tab_getElem?]
  by_cases hi : i < n
  · simp [hi, h i hi]
  · have : l.length ≤ i := by omega
    simp [hi, List.getElem?_eq_none this]

theorem eq_tab_getD {β : Type} (l : List β) (d : β) :
    l = tab l.length (fun i => l.getD i d) := by
  apply eq_tab_of_getElem? rfl
  intro i hi
  simp [List.getD_eq_getElem?_getD, List.getElem?_eq_getElem hi]

theorem tab_getD {β : Type} {n : ℕ} (f : ℕ → β) (d : β) {i : ℕ} (h : i < n) :
    (tab n f).getD i d = f i := by
  simp [List.getD_eq_getElem?_getD, tab_getElem?_lt f h]

theorem allocFill_eq_tab {β : Type} (n : ℕ) (f : ℕ → Option β) (g : ℕ → β)
    (h : ∀ i, i < n → f i = some (g i)) : allocFill n f = some (tab n g) := by
  induction n with
  | zero => simp [allocFill, tab]
  | succ m ih =>
    have h1 := ih (fun i hi => h i (by omega))
    simp [allocFill, h1, h m (by omega), tab_succ]

theorem allocFill_eq_none {β : Type} (n : ℕ) (f : ℕ → Option β) (i : ℕ) (hi : i < n)
    (h : f i = none) : allocFill n f = none := by
  induction n with
  | zero => omega
  | succ m ih =>
    by_cases him : i = m
    · subst him
      cases hm : allocFill i f <;> simp [allocFill, hm, h]
    · simp [allocFill, ih (by omega)]

/-- The loop rule: an invariant that holds at entry and is carried by every
iteration (which therefore succeeds) holds at exit, and the loop succeeds. -/
theorem forLoop_inv {σ : Type} (P : ℕ → σ → Prop) (n : ℕ) (body : ℕ → σ → Option σ)
    (s : σ) (h0 : P 0 s)
    (hstep : ∀ i t, i < n → P i t → ∃ t1, body i t = some t1 ∧ P (i + 1) t1) :
    ∃ t, forLoop n body s = some t ∧ P n t := by
  induction n with
  | zero => exact ⟨s, rfl, h0⟩
  | succ m ih =>
    obtain ⟨t, ht, hP⟩ := ih (fun i t hi hp => hstep i t (by omega) hp)
    obtain ⟨t1, ht1, hP1⟩ := hstep m t (by omega) hP
    exact ⟨t1, by simp [forLoop, ht, ht1], hP1⟩

theorem store_eq {β : Type} (a : List β) (i : ℕ) (x : β) (h : i < a.length) :
    store a i x = some (a.set i x) := by
  simp [store, h]

theorem forEachRow_tab {β : Type} (n : ℕ) (F : β → Option β) (f g : ℕ → β)
    (h : ∀ i, i < n → F (f i) = some (g i)) :
    forEachRow n F (tab n f) = some (tab n g) := by
  obtain ⟨t, ht, hlen, hP⟩ := forLoop_inv
    (fun m (d : List β) => d.length = n ∧
      ∀ j, j < n → d[j]? = some (if j < m then g j else f j))
    n (fun i d => d[i]?.bind fun row => (F row).bind fun row1 => store d i row1)
    (tab n f) (by simp [tab_getElem?]) (by
      intro i t hi ⟨hlen, hP⟩
      refine ⟨t.set i (g i), ?_, by simp [hlen], ?_⟩
      · have := hP i hi
        simp only [lt_irrefl, if_false] at this
        simp [this, h i hi, store, hlen, hi]
      · intro j hj
        rw [List.getElem?_set]
        by_cases hij : i = j
        · subst hij
          simp [hlen, hi]
        · rw [if_neg hij, hP j hj]
          have h1 : (j < i + 1) = (j < i) := by
            apply propext; constructor <;> intro _ <;> omega
          simp only [h1])
  unfold forEachRow
  rw [ht]
  congr 1
  apply eq_tab_of_getElem? hlen
  intro i hi
  simp [hP i hi, hi]

theorem freeRows_ok {β : Type} (n : ℕ) (a : List β) (h : n ≤ a.length) :
    freeRows n a = some () := by
  obtain ⟨t, ht, -⟩ := forLoop_inv (fun _ (_ : Unit) => True) n
    (fun i _ => a[i]?.bind fun _ => some ()) () trivial (by
      intro i t hi _
      exact ⟨(), by simp [List.getElem?_eq_getElem (show i < a.length by omega)], trivial⟩)
  exact ht

theorem allocFill_spec {β : Type} (n : ℕ) (f : ℕ → Option β)
    (h : ∀ i, i < n → ∃ x, f i = some x) :
    ∃ l, allocFill n f = some l ∧ l.length = n ∧ ∀ i, i < n → l[i]? = f i := by
  induction n with
  | zero => exact ⟨[], rfl, rfl, fun i hi => by omega⟩
  | succ m ih =>
    obtain ⟨l, hl, hlen, hget⟩ := ih (fun i hi => h i (by omega))
    obtain ⟨x, hx⟩ := h m (by omega)
    refine ⟨l ++ [x], by simp [allocFill, hl, hx], by simp [hlen], ?_⟩
    intro i hi
    by_cases him : i < m
    · rw [List.getElem?_append_left (by omega), hget i him]
    · have : i = m := by omega
      subst this
      rw [List.getElem?_append_right (by omega), hlen, hx]
      simp

/-! ## transposeData -/

theorem transposeData_tab {K : Type} (d1 d2 : ℕ) (f : ℕ → ℕ → K) :
    transposeData d1 d2 (tab d2 fun j => tab d1 fun i => f j i)
      = some (tab d1 fun i => tab d2 fun j => f j i) := by
  have h1 : (allocFill d1 fun i => allocFill d2 fun j =>
      (tab d2 fun j => tab d1 fun i => f j i)[j]?.bind fun row => row[i]?)
      = some (tab d1 fun i => tab d2 fun j => f j i) := by
    apply allocFill_eq_tab
    intro i hi
    apply allocFill_eq_tab
    intro j hj
    rw [tab_getElem?_lt _ hj, Option.some_bind, tab_getElem?_lt _ hi]
  simp [transposeData, h1, freeRows_ok]

theorem transposeData_shape {K : Type} (d1 d2 : ℕ) (data : List (List K))
    (hrows : data.length = d2) (hcols : ∀ row, row ∈ data → row.length = d1) :
    ∃ out, transposeData d1 d2 data = some out ∧ out.length = d1 ∧
      (∀ row, row ∈ out → row.length = d2) ∧
      ∀ i j, i < d1 → j < d2 →
        ∃ x, (out[i]?.bind fun r => r[j]?) = some x ∧ (data[j]?.bind fun r => r[i]?) = some x := by
  have hcell : ∀ i j, i < d1 → j < d2 → ∃ x, (data[j]?.bind fun r => r[i]?) = some x := by
    intro i j hi hj
    have hj1 : j < data.length := by omega
    have hmem : data[j] ∈ data := List.getElem_mem hj1
    have hi1 : i < (data[j]).length := by rw [hcols _ hmem]; exact hi
    exact ⟨(data[j])[i], by simp [List.getElem?_eq_getElem hj1, List.getElem?_eq_getElem hi1]⟩
  have hrow : ∀ i, i < d1 → ∃ l, (allocFill d2 fun j => data[j]?.bind fun r => r[i]?) = some l ∧
      l.length = d2 ∧ ∀ j, j < d2 → l[j]? = data[j]?.bind fun r => r[i]? :=
    fun i hi => allocFill_spec d2 _ (fun j hj => hcell i j hi hj)
  obtain ⟨out, hout, hlen, hget⟩ := allocFill_spec d1
    (fun i => allocFill d2 fun j => data[j]?.bind fun r => r[i]?)
    (fun i hi => by obtain ⟨l, hl, -⟩ := hrow i hi; exact ⟨l, hl⟩)
  refine ⟨out, by simp [transposeData, hout, freeRows_ok d2 data (by omega)], hlen, ?_, ?_⟩
  · intro row hmem
    obtain ⟨i, hi, rfl⟩ := List.getElem_of_mem hmem
    obtain ⟨l, hl, hl2, -⟩ := hrow i (by omega)
    have := hget i (by omega)
    rw [List.getElem?_eq_getElem hi, hl] at this
    rw [Option.some.inj this, hl2]
  · intro i j hi hj
    obtain ⟨l, hl, -, hl3⟩ := hrow i hi
    obtain ⟨x, hx⟩ := hcell i j hi hj
    refine ⟨x, ?_, hx⟩
    rw [hget i hi, hl]
    simp only [Option.some_bind]
    rw [hl3 j hj, hx]

/-! ## fftCPU: memory safety and the shape of one level -/

section KernelLemmas

variable {K : Type} [Add K] [Sub K] [Mul K]

theorem combine_spec (w : ℕ → ℤ → K) (n : ℤ) (h : ℕ) (g u values : List K)
    (hg : h ≤ g.length) (hu : h ≤ u.length) (hv : 2 * h ≤ values.length) :
    ∃ out, combine w n h g u values = some out ∧ out.length = values.length ∧
      ∀ j, out[j]? =
        if j < h then
          g[j]?.bind fun gk => u[j]?.bind fun uk => some (gk + uk * w j n)
        else if j < 2 * h then
          g[j - h]?.bind fun gk => u[j - h]?.bind fun uk => some (gk - uk * w (j - h) n)
        else values[j]? := by
  obtain ⟨out, hout, hlen, hP⟩ := forLoop_inv
    (fun m (vals : List K) => vals.length = values.length ∧
      ∀ j, vals[j]? =
        if j < m then
          g[j]?.bind fun gk => u[j]?.bind fun uk => some (gk + uk * w j n)
        else if h ≤ j ∧ j < h + m then
          g[j - h]?.bind fun gk => u[j - h]?.bind fun uk => some (gk - uk * w (j - h) n)
        else values[j]?)
    h (fun k vals =>
      g[k]?.bind fun gk =>
      u[k]?.bind fun uk =>
      (store vals k (gk + uk * w k n)).bind fun vals1 =>
      store vals1 (k + h) (gk - uk * w k n)) values
    ⟨rfl, fun j => by
      rw [if_neg (show ¬ j < 0 by omega), if_neg (show ¬ (h ≤ j ∧ j < h + 0) by omega)]⟩ (by
      intro i t hi ⟨hlen, hP⟩
      have hgi : g[i]? = some g[i] := List.getElem?_eq_getElem (by omega)
      have hui : u[i]? = some u[i] := List.getElem?_eq_getElem (by omega)
      refine ⟨(t.set i (g[i] + u[i] * w i n)).set (i + h) (g[i] - u[i] * w i n), ?_, ?_, ?_⟩
      · simp only [hgi, hui, Option.some_bind]
        rw [store_eq _ _ _ (by omega), Option.some_bind, store_eq _ _ _ (by simp; omega)]
      · simp [hlen]
      · intro j
        rw [List.getElem?_set, List.getElem?_set, List.length_set, hP j]
        by_cases h1 : i + h = j
        · subst h1
          rw [if_pos rfl, if_pos (show i + h < t.length by omega),
            if_neg (show ¬ (i + h < i + 1) by omega),
            if_pos (show h ≤ i + h ∧ i + h < h + (i + 1) by omega),
            Nat.add_sub_cancel, hgi, hui]
          rfl
        · rw [if_neg h1]
          by_cases h2 : i = j
          · subst h2
            rw [if_pos rfl, if_pos (show i < t.length by omega),
              if_pos (show i < i + 1 by omega), hgi, hui]
            rfl
          · rw [if_neg h2]
            split_ifs <;> first | rfl | omega)
  refine ⟨out, hout, hlen, ?_⟩
  intro j
  rw [hP j]
  by_cases h1 : j < h
  · rw [if_pos h1, if_pos h1]
  · rw [if_neg h1, if_neg h1]
    by_cases h2 : j < 2 * h
    · rw [if_pos h2, if_pos (by omega)]
    · rw [if_neg h2, if_neg (by omega)]

/-- Memory safety of `fftCPU`: on a buffer of at least `n` cells the call
returns, and the buffer keeps its length. -/
theorem fftCPU_length (w : ℕ → ℤ → K) (m : ℕ) :
    ∀ (n : ℤ) (values : List K), n.toNat ≤ m → n ≤ values.length →
      ∃ out, fftCPU w n values = some out ∧ out.length = values.length := by
  induction m with
  | zero =>
    intro n values hm _
    rw [fftCPU, if_neg (by omega)]
    exact ⟨values, rfl, rfl⟩
  | succ m ih =>
    intro n values hm hn
    rw [fftCPU]
    by_cases h1 : 1 < n
    · rw [if_pos h1]
      obtain ⟨g, hg, hgl, -⟩ := allocFill_spec (n / 2).toNat (fun i => values[i * 2]?)
        (fun i hi => ⟨_, List.getElem?_eq_getElem (show i * 2 < values.length by omega)⟩)
      obtain ⟨u, hu, hul, -⟩ := allocFill_spec (n / 2).toNat (fun i => values[i * 2 + 1]?)
        (fun i hi => ⟨_, List.getElem?_eq_getElem (show i * 2 + 1 < values.length by omega)⟩)
      obtain ⟨g1, hg1, hg1l⟩ := ih (n / 2) g (by omega) (by omega)
      obtain ⟨u1, hu1, hu1l⟩ := ih (n / 2) u (by omega) (by omega)
      obtain ⟨out, hout, hlen, -⟩ := combine_spec w n (n / 2).toNat g1 u1 values
        (by omega) (by omega) (by omega)
      exact ⟨out, by simp [hg, hu, hg1, hu1, hout], hlen⟩
    · rw [if_neg h1]
      exact ⟨values, rfl, rfl⟩

end KernelLemmas

/-! ## fftCPU computes the DFT on power-of-two lengths -/

theorem sum_range_even_odd {K : Type} [AddCommMonoid K] (F : ℕ → K) (h : ℕ) :
    ∑ t ∈ Finset.range (2 * h), F t
      = ∑ s ∈ Finset.range h, F (2 * s) + ∑ s ∈ Finset.range h, F (2 * s + 1) := by
  induction h with
  | zero => simp
  | succ m ih =>
    rw [show 2 * (m + 1) = 2 * m + 1 + 1 by ring, Finset.sum_range_succ, Finset.sum_range_succ,
      ih, Finset.sum_range_succ, Finset.sum_range_succ]
    abel

section DftLemmas

variable {K : Type} [CommRing K]

theorem IsTwiddle.zero {w : ℕ → ℤ → K} (hw : IsTwiddle w) (h : ℕ) (hh : 0 < h) :
    w 0 (h : ℤ) = 1 := by
  have := hw.period 0 h hh
  simpa using this

/-- One butterfly level, lower half: `G j + U j * w j n` is the DFT of the
interleaved samples. -/
theorem dftSum_low {w : ℕ → ℤ → K} (hw : IsTwiddle w) (h : ℕ) (hh : 0 < h) (f : ℕ → K)
    (j : ℕ) :
    dftSum w h (fun i => f (i * 2)) j
        + dftSum w h (fun i => f (i * 2 + 1)) j * w j ((2 * h : ℕ) : ℤ)
      = dftSum w (2 * h) f j := by
  unfold dftSum
  rw [sum_range_even_odd, Finset.sum_mul]
  congr 1
  · apply Finset.sum_congr rfl
    intro s _
    rw [show j * (2 * s) = 2 * (j * s) by ring, hw.double _ _ hh, mul_comm 2 s]
  · apply Finset.sum_congr rfl
    intro s _
    rw [show j * (2 * s + 1) = 2 * (j * s) + j by ring, hw.add, hw.double _ _ hh,
      show 2 * s + 1 = s * 2 + 1 by ring]
    ring

/-- One butterfly level, upper half: `G j - U j * w j n` is the DFT at
frequency `j + n / 2`. -/
theorem dftSum_high {w : ℕ → ℤ → K} (hw : IsTwiddle w) (h : ℕ) (hh : 0 < h) (f : ℕ → K)
    (j : ℕ) :
    dftSum w h (fun i => f (i * 2)) j
        - dftSum w h (fun i => f (i * 2 + 1)) j * w j ((2 * h : ℕ) : ℤ)
      = dftSum w (2 * h) f (j + h) := by
  unfold dftSum
  rw [sum_range_even_odd, Finset.sum_mul, sub_eq_add_neg, ← Finset.sum_neg_distrib]
  congr 1
  · apply Finset.sum_congr rfl
    intro s _
    rw [show (j + h) * (2 * s) = 2 * (j * s + h * s) by ring, hw.double _ _ hh, hw.add,
      hw.period _ _ hh, mul_comm 2 s]
    simp
  · apply Finset.sum_congr rfl
    intro s _
    rw [show (j + h) * (2 * s + 1) = 2 * (j * s + h * s) + (j + h) by ring, hw.add,
      hw.double _ _ hh, hw.add, hw.period _ _ hh, hw.add, hw.half _ hh,
      show 2 * s + 1 = s * 2 + 1 by ring]
    ring

end DftLemmas

section KernelStep

variable {K : Type} [Add K] [Sub K] [Mul K]

/-- One level of the recursion on a buffer of even length `2 * h`, given what
the two recursive calls return. -/
theorem fftCPU_step (w : ℕ → ℤ → K) (h : ℕ) (hh : 0 < h) (f G U : ℕ → K)
    (hG : fftCPU w (h : ℤ) (tab h fun i => f (i * 2)) = some (tab h G))
    (hU : fftCPU w (h : ℤ) (tab h fun i => f (i * 2 + 1)) = some (tab h U)) :
    fftCPU w ((2 * h : ℕ) : ℤ) (tab (2 * h) f)
      = some (tab (2 * h) fun j =>
          if j < h then G j + U j * w j ((2 * h : ℕ) : ℤ)
          else G (j - h) - U (j - h) * w (j - h) ((2 * h : ℕ) : ℤ)) := by
  have e1 : ((2 * h : ℕ) : ℤ) / 2 = (h : ℤ) := by omega
  have e2 : ((h : ℕ) : ℤ).toNat = h := by omega
  have hg : (allocFill h fun i => (tab (2 * h) f)[i * 2]?) = some (tab h fun i => f (i * 2)) :=
    allocFill_eq_tab _ _ _ (fun i hi => tab_getElem?_lt f (by omega))
  have hu : (allocFill h fun i => (tab (2 * h) f)[i * 2 + 1]?)
      = some (tab h fun i => f (i * 2 + 1)) :=
    allocFill_eq_tab _ _ _ (fun i hi => tab_getElem?_lt f (by omega))
  obtain ⟨out, hout, hlen, hP⟩ := combine_spec w ((2 * h : ℕ) : ℤ) h (tab h G) (tab h U)
    (tab (2 * h) f) (by simp) (by simp) (by simp)
  rw [fftCPU, if_pos (by omega), e1, e2, hg, Option.some_bind, hu, Option.some_bind, hG,
    Option.some_bind, hU, Option.some_bind, hout]
  congr 1
  apply eq_tab_of_getElem? (by simpa using hlen)
  intro j hj
  rw [hP j]
  by_cases h1 : j < h
  · rw [if_pos h1, if_pos h1, tab_getElem?_lt _ h1, tab_getElem?_lt _ h1]
    rfl
  · rw [if_neg h1, if_neg h1, if_pos hj, tab_getElem?_lt _ (show j - h < h by omega),
      tab_getElem?_lt _ (show j - h < h by omega)]
    rfl

end KernelStep

section KernelDft

variable {K : Type} [CommRing K]

/-- The transform of a buffer of `2 ^ k` samples is its DFT, for any twiddle
system. -/
theorem fftCPU_tab {w : ℕ → ℤ → K} (hw : IsTwiddle w) (k : ℕ) :
    ∀ f : ℕ → K,
      fftCPU w ((2 ^ k : ℕ) : ℤ) (tab (2 ^ k) f) = some (tab (2 ^ k) (dftSum w (2 ^ k) f)) := by
  induction k with
  | zero =>
    intro f
    rw [fftCPU, if_neg (by simp)]
    congr 1
    apply tab_congr
    intro i hi
    have : i = 0 := by simpa using hi
    subst this
    have h1 := hw.zero 1 (by omega)
    simp only [Nat.cast_one] at h1
    simp [dftSum, h1]
  | succ k ih =>
    intro f
    have hh : 0 < 2 ^ k := Nat.pow_pos (by omega)
    rw [pow_succ', fftCPU_step w (2 ^ k) hh f _ _ (ih _) (ih _)]
    congr 1
    apply tab_congr
    intro j hj
    by_cases h1 : j < 2 ^ k
    · rw [if_pos h1, dftSum_low hw _ hh]
    · rw [if_neg h1, dftSum_high hw _ hh, Nat.sub_add_cancel (by omega)]

end KernelDft

/-! ## The exponential twiddle factors and the 1-D contract -/

theorem isTwiddle_cexp :
    IsTwiddle (fun (k : ℕ) (n : ℤ) => Complex.exp (-2 * Real.pi * Complex.I * k / n)) where
  add := by
    intro a b n
    rw [← Complex.exp_add]
    congr 1
    push_cast
    ring
  double := by
    intro a h hh
    congr 1
    have : (h : ℂ) ≠ 0 := by exact_mod_cast hh.ne'
    push_cast
    field_simp
    ring
  period := by
    intro s h hh
    have : (h : ℂ) ≠ 0 := by exact_mod_cast hh.ne'
    have e : -2 * (Real.pi : ℂ) * Complex.I * ((h * s : ℕ) : ℂ) / ((h : ℤ) : ℂ)
        = ((-(s : ℤ) : ℤ) : ℂ) * (2 * Real.pi * Complex.I) := by
      push_cast
      field_simp
      ring
    rw [e, Complex.exp_int_mul_two_pi_mul_I]
  half := by
    intro h hh
    have : (h : ℂ) ≠ 0 := by exact_mod_cast hh.ne'
    have e : -2 * (Real.pi : ℂ) * Complex.I * (h : ℂ) / (((2 * h : ℕ) : ℤ) : ℂ)
        = -(Real.pi * Complex.I) := by
      push_cast
      field_simp
      ring
    rw [e, Complex.exp_neg, Complex.exp_pi_mul_I]
    norm_num

/-- C1: on a buffer of `2 ^ k` complex samples `fftCPU(2 ^ k, v)` returns and
leaves in `v` the DFT of the input in natural order: cell `j` holds the sum over
`t < 2 ^ k` of `v[t] * exp(-2 pi i j t / 2 ^ k)`. -/
theorem fftCPU_dft (k : ℕ) (v : List ℂ) (hv : v.length = 2 ^ k) :
    fftCPU (fun (k : ℕ) (n : ℤ) => Complex.exp (-2 * Real.pi * Complex.I * k / n)) (2 ^ k) v
      = some ((List.range (2 ^ k)).map fun (j : ℕ) =>
          ∑ t ∈ Finset.range (2 ^ k),
            v.getD t 0 * Complex.exp (-2 * Real.pi * Complex.I * j * t / 2 ^ k)) := by
  have h1 := fftCPU_tab isTwiddle_cexp k (fun t => v.getD t 0)
  have h2 : v = tab (2 ^ k) (fun t => v.getD t 0) := by
    rw [← hv]; exact eq_tab_getD v 0
  rw [← h2] at h1
  push_cast at h1
  rw [h1]
  congr 1
  apply tab_congr
  intro j hj
  unfold dftSum
  apply Finset.sum_congr rfl
  intro t _
  push_cast
  congr 2
  ring
/-- C1 at `k = 1`, `v = [1, 2]`. -/
theorem fftCPU_dft_witness :
    ([1, 2] : List ℂ).length = 2 ^ 1 ∧
    fftCPU (fun (k : ℕ) (n : ℤ) => Complex.exp (-2 * Real.pi * Complex.I * k / n)) (2 ^ 1)
        [1, 2]
      = some ((List.range (2 ^ 1)).map fun (j : ℕ) =>
          ∑ t ∈ Finset.range (2 ^ 1),
            ([1, 2] : List ℂ).getD t 0
              * Complex.exp (-2 * Real.pi * Complex.I * j * t / 2 ^ 1)) :=
  ⟨rfl, fftCPU_dft 1 [1, 2] rfl⟩

/-! ## The transpose contract -/

/-- Two rectangular arrays of the same shape with the same cells are equal. -/
theorem array2_ext {K : Type} (A B : List (List K)) (n m : ℕ)
    (hA : A.length = n) (hA2 : ∀ row, row ∈ A → row.length = m)
    (hB : B.length = n) (hB2 : ∀ row, row ∈ B → row.length = m)
    (h : ∀ i j, i < n → j < m → (A[i]?.bind fun r => r[j]?) = (B[i]?.bind fun r => r[j]?)) :
    A = B := by
  apply List.ext_getElem (by omega)
  intro i h1 h2
  have hAi : (A[i]).length = m := hA2 _ (List.getElem_mem h1)
  have hBi : (B[i]).length = m := hB2 _ (List.getElem_mem h2)
  apply List.ext_getElem (by omega)
  intro j h3 h4
  have := h i j (by omega) (by omega)
  rw [List.getElem?_eq_getElem h1, List.getElem?_eq_getElem h2, Option.some_bind,
    Option.some_bind, List.getElem?_eq_getElem h3, List.getElem?_eq_getElem h4] at this
  exact Option.some.inj this

/-- C6 as stated fails: handed an array with `rows = 1` row of `cols = 2`
samples, `transposeData(1, 2, data)` reads the row `data[1]`, which does not
exist. -/
theorem transposeData_rows_cols_counterexample :
    ([[1, 2]] : List (List ℂ)).length = 1 ∧
    (∀ row, row ∈ ([[1, 2]] : List (List ℂ)) → row.length = 2) ∧
    transposeData 1 2 ([[1, 2]] : List (List ℂ)) = none :=
  ⟨rfl, by simp, rfl⟩

/-- C6 (amended): the two parameters are the dimensions of the result. For an
array `data` with `cols` rows of `rows` samples each,
`transposeData(rows, cols, data)` succeeds (every index is in range) and
replaces `data` by an array with `rows` rows of `cols` samples such that
`result[i][j] = data[j][i]` for every `i < rows`, `j < cols`. -/
theorem transposeData_result_dims {K : Type} (rows cols : ℕ) (data : List (List K))
    (hlen : data.length = cols) (hrow : ∀ row, row ∈ data → row.length = rows) :
    ∃ result, transposeData rows cols data = some result ∧ result.length = rows ∧
      (∀ row, row ∈ result → row.length = cols) ∧
      ∀ i j, i < rows → j < cols →
        ∃ x, (result[i]?.bind fun r => r[j]?) = some x ∧
          (data[j]?.bind fun r => r[i]?) = some x :=
  transposeData_shape rows cols data hlen hrow

/-- C6 (amended) on the 2 x 1 array `[[1], [2]]`, transposed to `[[1, 2]]`. -/
theorem transposeData_result_dims_witness :
    ([[1], [2]] : List (List ℂ)).length = 2 ∧
    (∀ row, row ∈ ([[1], [2]] : List (List ℂ)) → row.length = 1) ∧
    ∃ result, transposeData 1 2 ([[1], [2]] : List (List ℂ)) = some result ∧
      result.length = 1 ∧
      (∀ row, row ∈ result → row.length = 2) ∧
      ∀ i j, i < 1 → j < 2 →
        ∃ x, (result[i]?.bind fun r => r[j]?) = some x ∧
          (([[1], [2]] : List (List ℂ))[j]?.bind fun r => r[i]?) = some x :=
  ⟨rfl, by simp, transposeData_result_dims 1 2 [[1], [2]] rfl (by simp)⟩

/-- C7: transposing with `(d1, d2)` and then with `(d2, d1)` gives back the
array `A` (with `d2` rows of `d1` samples), shape and elements. -/
theorem transposeData_involution {K : Type} (d1 d2 : ℕ) (A : List (List K))
    (hlen : A.length = d2) (hrow : ∀ row, row ∈ A → row.length = d1) :
    (transposeData d1 d2 A).bind (transposeData d2 d1) = some A := by
  obtain ⟨B, hB, hBlen, hBrow, hBcell⟩ := transposeData_shape d1 d2 A hlen hrow
  obtain ⟨C, hC, hClen, hCrow, hCcell⟩ := transposeData_shape d2 d1 B hBlen hBrow
  rw [hB, Option.some_bind, hC]
  congr 1
  apply array2_ext C A d2 d1 hClen hCrow hlen hrow
  intro j i hj hi
  obtain ⟨x, hx1, hx2⟩ := hCcell j i hj hi
  obtain ⟨y, hy1, hy2⟩ := hBcell i j hi hj
  rw [hx1, hy2, ← hx2, hy1]

/-- C7 on the 2 x 1 array `[[1], [2]]`. -/
theorem transposeData_involution_witness :
    ([[1], [2]] : List (List ℂ)).length = 2 ∧
    (∀ row, row ∈ ([[1], [2]] : List (List ℂ)) → row.length = 1) ∧
    (transposeData 1 2 ([[1], [2]] : List (List ℂ))).bind (transposeData 2 1)
      = some [[1], [2]] :=
  ⟨rfl, by simp, transposeData_involution 1 2 [[1], [2]] rfl (by simp)⟩

/-! ## Closed forms of the copy loops -/

/-- The loop rule in closed form: if every iteration takes the `i`-th state
of a sequence to the next one, the loop takes the first to the last. -/
theorem forLoop_closed {σ : Type} (n : ℕ) (body : ℕ → σ → Option σ) (S : ℕ → σ)
    (h : ∀ i, i < n → body i (S i) = some (S (i + 1))) :
    forLoop n body (S 0) = some (S n) := by
  induction n with
  | zero => rfl
  | succ m ih =>
    rw [forLoop, ih (fun i hi => h i (by omega)), Option.some_bind, h m (by omega)]

theorem forLoop_congr {σ : Type} (n : ℕ) (body body1 : ℕ → σ → Option σ) (s : σ)
    (h : ∀ i t, i < n → body i t = body1 i t) :
    forLoop n body s = forLoop n body1 s := by
  induction n with
  | zero => rfl
  | succ m ih =>
    rw [forLoop, forLoop, ih (fun i t hi => h i t (by omega))]
    cases forLoop m body1 s with
    | none => rfl
    | some t => exact h m t (by omega)

theorem store_tab {β : Type} (n : ℕ) (f : ℕ → β) (i : ℕ) (x : β) (hi : i < n) :
    store (tab n f) i x = some (tab n fun p => if p = i then x else f p) := by
  rw [store_eq _ _ _ (by simpa using hi)]
  congr 1
  apply eq_tab_of_getElem? (by simp)
  intro p hp
  rw [List.getElem?_set, tab_length, tab_getElem?_lt _ hp]
  by_cases h : i = p
  · subst h; simp [hi]
  · rw [if_neg h, if_neg (fun h1 => h h1.symm)]

/-- The loop `for (j < n) e[base + j] = x j`. -/
theorem fill1_tab {β : Type} (len base n : ℕ) (x : ℕ → β) (e : ℕ → β)
    (h : base + n ≤ len) :
    forLoop n (fun j e1 => store e1 (base + j) (x j)) (tab len e)
      = some (tab len fun p => if base ≤ p ∧ p < base + n then x (p - base) else e p) := by
  have h0 : tab len e = tab len fun p => if base ≤ p ∧ p < base + 0 then x (p - base) else e p :=
    tab_congr (fun p _ => by rw [if_neg (by omega)])
  rw [h0]
  apply forLoop_closed n _
    (fun m => tab len fun p => if base ≤ p ∧ p < base + m then x (p - base) else e p)
  intro j hj
  rw [store_tab _ _ _ _ (by omega)]
  congr 1
  apply tab_congr
  intro p _
  by_cases h1 : p = base + j
  · subst h1
    rw [if_pos rfl, if_pos (by omega), Nat.add_sub_cancel_left]
  · rw [if_neg h1]
    by_cases h2 : base ≤ p ∧ p < base + j
    · rw [if_pos h2, if_pos (by omega)]
    · rw [if_neg h2, if_neg (by omega)]

theorem div_mod_of_eq (n i r q : ℕ) (hr : r < n) (hq : q = i * n + r) :
    q / n = i ∧ q % n = r := by
  subst hq
  have hn : 0 < n := by omega
  constructor
  · rw [Nat.add_comm, Nat.add_mul_div_right _ _ hn, Nat.div_eq_of_lt hr, Nat.zero_add]
  · rw [Nat.add_comm, Nat.add_mul_mod_self_right, Nat.mod_eq_of_lt hr]

/-- The loops `for (i < m) for (j < n) e[base + i * n + j] = x i j`. -/
theorem fill2_tab {β : Type} (len base m n : ℕ) (x : ℕ → ℕ → β) (e : ℕ → β)
    (h : base + m * n ≤ len) :
    forLoop m (fun i e1 => forLoop n (fun j e2 => store e2 (base + i * n + j) (x i j)) e1)
        (tab len e)
      = some (tab len fun p =>
          if base ≤ p ∧ p < base + m * n then x ((p - base) / n) ((p - base) % n) else e p) := by
  have h0 : tab len e = tab len fun p =>
      if base ≤ p ∧ p < base + 0 * n then x ((p - base) / n) ((p - base) % n) else e p :=
    tab_congr (fun p _ => by rw [if_neg (by omega)])
  rw [h0]
  apply forLoop_closed m _
    (fun i => tab len fun p =>
      if base ≤ p ∧ p < base + i * n then x ((p - base) / n) ((p - base) % n) else e p)
  intro i hi
  have h1 : (i + 1) * n ≤ m * n := Nat.mul_le_mul_right n (by omega)
  have h2 : (i + 1) * n = i * n + n := Nat.succ_mul i n
  rw [fill1_tab len (base + i * n) n (x i) _ (by omega)]
  congr 1
  apply tab_congr
  intro p _
  by_cases h3 : base + i * n ≤ p ∧ p < base + i * n + n
  · obtain ⟨e1, e2⟩ := div_mod_of_eq n i (p - (base + i * n)) (p - base) (by omega) (by omega)
    rw [if_pos h3, if_pos (by omega), e1, e2]
  · rw [if_neg h3]
    by_cases h4 : base ≤ p ∧ p < base + i * n
    · rw [if_pos h4, if_pos (by omega)]
    · rw [if_neg h4, if_neg (by omega)]

/-! ## The 2-D branch -/

section WrapperLemmas

variable {K : Type} [Add K] [Sub K] [Mul K]

/-- On a buffer of exactly `n` cells `fftCPU(n, .)` returns, and its result is
tabulated by `fftFun`. -/
theorem fftCPU_tab_fftFun (w : ℕ → ℤ → K) (n : ℕ) (d : K) (f : ℕ → K) :
    fftCPU w (n : ℤ) (tab n f) = some (tab n (fftFun w n d f)) := by
  obtain ⟨out, hout, hlen⟩ := fftCPU_length w n (n : ℤ) (tab n f) (by omega) (by simp)
  have h1 : out = tab n (fun j => out.getD j d) := by
    have := eq_tab_getD out d
    rw [hlen, tab_length] at this
    exact this
  rw [hout]
  congr 1
  rw [h1]
  apply tab_congr
  intro j _
  unfold fftFun
  rw [hout]
  rfl

theorem cell_lt {M N i j : ℕ} (hi : i < M) (hj : j < N) : i * N + j < M * N := by
  have h1 : (i + 1) * N ≤ M * N := Nat.mul_le_mul_right N (by omega)
  have h2 : (i + 1) * N = i * N + N := Nat.succ_mul i N
  omega

/-- The 2-D branch in closed form, for any description `FN`, `FM` of what the
1-D kernel does on buffers of `N` and of `M` cells. -/
theorem fftCPUWrapper2D_closed (w : ℕ → ℤ → K) (M N : ℕ) (FN FM : (ℕ → K) → ℕ → K)
    (hFN : ∀ f, fftCPU w (N : ℤ) (tab N f) = some (tab N (FN f)))
    (hFM : ∀ f, fftCPU w (M : ℤ) (tab M f) = some (tab M (FM f)))
    (inp e : ℕ → K) :
    fftCPUWrapper2D w M N (tab (M * N) inp) (tab (M * N) e)
      = some (tab (M * N) fun p =>
          FM (fun r => FN (fun c => inp (r * N + c)) (p % N)) (p / N)) := by
  have ha : (allocFill M fun i => allocFill N fun j => (tab (M * N) inp)[i * N + j]?)
      = some (tab M fun i => tab N fun j => inp (i * N + j)) :=
    allocFill_eq_tab _ _ _ (fun i hi => allocFill_eq_tab _ _ _
      (fun j hj => tab_getElem?_lt inp (cell_lt hi hj)))
  have hb : forEachRow M (fftCPU w (N : ℤ)) (tab M fun i => tab N fun j => inp (i * N + j))
      = some (tab M fun i => tab N fun b => FN (fun c => inp (i * N + c)) b) :=
    forEachRow_tab M _ _ _ (fun i _ => hFN _)
  have hc := transposeData_tab N M (fun i b => FN (fun c => inp (i * N + c)) b)
  have hd : forEachRow N (fftCPU w (M : ℤ))
      (tab N fun b => tab M fun r => FN (fun c => inp (r * N + c)) b)
      = some (tab N fun b => tab M fun a => FM (fun r => FN (fun c => inp (r * N + c)) b) a) :=
    forEachRow_tab N _ _ _ (fun b _ => hFM _)
  have he := transposeData_tab M N (fun b a => FM (fun r => FN (fun c => inp (r * N + c)) b) a)
  have hf : (forLoop M (fun i e0 =>
      forLoop N (fun j e1 =>
        (tab M fun a => tab N fun b =>
          FM (fun r => FN (fun c => inp (r * N + c)) b) a)[i]?.bind fun row =>
        row[j]?.bind fun x => store e1 (i * N + j) x) e0) (tab (M * N) e))
      = some (tab (M * N) fun p =>
          FM (fun r => FN (fun c => inp (r * N + c)) (p % N)) (p / N)) := by
    rw [forLoop_congr M _ (fun i e0 => forLoop N (fun j e1 => store e1 (0 + i * N + j)
        (FM (fun r => FN (fun c => inp (r * N + c)) j) i)) e0) _
      (fun i t hi => forLoop_congr N _ _ _ (fun j t1 hj => by
        rw [tab_getElem?_lt _ hi, Option.some_bind, tab_getElem?_lt _ hj, Option.some_bind,
          Nat.zero_add]))]
    rw [fill2_tab (M * N) 0 M N
      (fun i j => FM (fun r => FN (fun c => inp (r * N + c)) j) i) e (by omega)]
    congr 1
    apply tab_congr
    intro p hp
    rw [if_pos (by omega), Nat.sub_zero]
  unfold fftCPUWrapper2D
  rw [ha, Option.some_bind, hb, Option.some_bind, hc, Option.some_bind, hd, Option.some_bind,
    he, Option.some_bind, hf, Option.some_bind, freeRows_ok M _ (by simp), Option.some_bind]

end WrapperLemmas

/-- The double sum computed by a row pass followed by a column pass is the
2-D DFT sum with the exponentials merged. -/
theorem dftSum_dftSum_cexp (M N : ℕ) (g : ℕ → ℕ → ℂ) (a b : ℕ) :
    dftSum (fun (k : ℕ) (n : ℤ) => Complex.exp (-2 * Real.pi * Complex.I * k / n)) M
        (fun r => dftSum
          (fun (k : ℕ) (n : ℤ) => Complex.exp (-2 * Real.pi * Complex.I * k / n)) N
          (fun c => g r c) b) a
      = ∑ r ∈ Finset.range M, ∑ c ∈ Finset.range N,
          g r c * Complex.exp (-2 * Real.pi * Complex.I
            * ((a : ℂ) * (r : ℂ) / (M : ℂ) + (b : ℂ) * (c : ℂ) / (N : ℂ))) := by
  unfold dftSum
  apply Finset.sum_congr rfl
  intro r _
  rw [Finset.sum_mul]
  apply Finset.sum_congr rfl
  intro c _
  rw [mul_assoc, ← Complex.exp_add]
  congr 2
  push_cast
  ring

/-- C2: on the 2-D path (`L = 1`, `M > 1`, `M` and `N` powers of two, buffers of
`M * N` samples) `fftCPUWrapper` returns, and cell `a * N + b` of `expectedData`
holds the 2-D DFT sum over `r < M`, `c < N` of
`input[r * N + c] * exp(-2 pi i (a r / M + b c / N))`. -/
theorem fftCPUWrapper_2D_dft (p q M N : ℕ) (hM : M = 2 ^ p) (hN : N = 2 ^ q) (hM1 : 1 < M)
    (inputData expectedData : List ℂ)
    (hin : inputData.length = M * N) (hexp : expectedData.length = M * N) :
    ∃ out,
      fftCPUWrapper (fun (k : ℕ) (n : ℤ) => Complex.exp (-2 * Real.pi * Complex.I * k / n))
          1 M N ((M * N : ℕ) : ℤ) inputData expectedData = some (inputData, out) ∧
      out.length = M * N ∧
      ∀ a b : ℕ, a < M → b < N →
        out[a * N + b]? = some (∑ r ∈ Finset.range M, ∑ c ∈ Finset.range N,
          inputData.getD (r * N + c) 0 * Complex.exp (-2 * Real.pi * Complex.I
            * ((a : ℂ) * (r : ℂ) / (M : ℂ) + (b : ℂ) * (c : ℂ) / (N : ℂ)))) := by
  have h1 : inputData = tab (M * N) (fun t => inputData.getD t 0) := by
    rw [← hin]; exact eq_tab_getD _ 0
  have h2 : expectedData = tab (M * N) (fun t => expectedData.getD t 0) := by
    rw [← hexp]; exact eq_tab_getD _ 0
  have h3 := fftCPUWrapper2D_closed
    (fun (k : ℕ) (n : ℤ) => Complex.exp (-2 * Real.pi * Complex.I * k / n)) M N
    (dftSum _ N) (dftSum _ M)
    (fun f => by rw [hN]; exact fftCPU_tab isTwiddle_cexp q f)
    (fun f => by rw [hM]; exact fftCPU_tab isTwiddle_cexp p f)
    (fun t => inputData.getD t 0) (fun t => expectedData.getD t 0)
  rw [← h1, ← h2] at h3
  rw [fftCPUWrapper, if_neg (by omega), if_pos rfl, h3]
  refine ⟨_, rfl, ?_, ?_⟩
  · simp
  · intro a b ha hb
    obtain ⟨e1, e2⟩ := div_mod_of_eq N a b (a * N + b) hb rfl
    rw [tab_getElem?_lt _ (cell_lt ha hb), e1, e2]
    congr 1
    exact dftSum_dftSum_cexp M N (fun r c => inputData.getD (r * N + c) 0) a b

/-- C2 at `M = N = 2` on the input `[1, 2, 3, 4]`. -/
theorem fftCPUWrapper_2D_dft_witness :
    2 = 2 ^ 1 ∧ 1 < 2 ∧ ([1, 2, 3, 4] : List ℂ).length = 2 * 2 ∧
    ([0, 0, 0, 0] : List ℂ).length = 2 * 2 ∧
    ∃ out,
      fftCPUWrapper (fun (k : ℕ) (n : ℤ) => Complex.exp (-2 * Real.pi * Complex.I * k / n))
          1 2 2 ((2 * 2 : ℕ) : ℤ) [1, 2, 3, 4] [0, 0, 0, 0] = some ([1, 2, 3, 4], out) ∧
      out.length = 2 * 2 ∧
      ∀ a b : ℕ, a < 2 → b < 2 →
        out[a * 2 + b]? = some (∑ r ∈ Finset.range 2, ∑ c ∈ Finset.range 2,
          ([1, 2, 3, 4] : List ℂ).getD (r * 2 + c) 0 * Complex.exp (-2 * Real.pi * Complex.I
            * ((a : ℂ) * (r : ℂ) / ((2 : ℕ) : ℂ) + (b : ℂ) * (c : ℂ) / ((2 : ℕ) : ℂ)))) :=
  ⟨rfl, by decide, rfl, rfl,
    fftCPUWrapper_2D_dft 1 1 2 2 rfl rfl (by decide) [1, 2, 3, 4] [0, 0, 0, 0] rfl rfl⟩

/-! ## The 3-D branch -/

theorem tab3_congr {β : Type} {L M N : ℕ} {f g : ℕ → ℕ → ℕ → β}
    (h : ∀ k i j, k < L → i < M → j < N → f k i j = g k i j) : tab3 L M N f = tab3 L M N g :=
  tab_congr fun k hk => tab_congr fun i hi => tab_congr fun j hj => h k i j hk hi hj

theorem store3_tab3 {β : Type} (L M N : ℕ) (h : ℕ → ℕ → ℕ → β) (k0 i0 j0 : ℕ) (x : β)
    (hk : k0 < L) (hi : i0 < M) (hj : j0 < N) :
    store3 (tab3 L M N h) k0 i0 j0 x
      = some (tab3 L M N fun k i j => if k = k0 ∧ i = i0 ∧ j = j0 then x else h k i j) := by
  unfold store3 tab3
  rw [tab_getElem?_lt _ hk, Option.some_bind, tab_getElem?_lt _ hi, Option.some_bind,
    store_tab _ _ _ _ hj, Option.some_bind, store_tab _ _ _ _ hi, Option.some_bind,
    store_tab _ _ _ _ hk]
  congr 1
  apply tab_congr
  intro k _
  by_cases h1 : k = k0
  · subst h1
    rw [if_pos rfl]
    apply tab_congr
    intro i _
    by_cases h2 : i = i0
    · subst h2
      rw [if_pos rfl]
      apply tab_congr
      intro j _
      by_cases h3 : j = j0 <;> simp [h3]
    · rw [if_neg h2]
      apply tab_congr
      intro j _
      simp [h2]
  · rw [if_neg h1]
    apply tab_congr
    intro i _
    apply tab_congr
    intro j _
    simp [h1]

theorem tab3_cell {β : Type} (L M N : ℕ) (h : ℕ → ℕ → ℕ → β) (k i j : ℕ)
    (hk : k < L) (hi : i < M) (hj : j < N) :
    ((tab3 L M N h)[k]?.bind fun plane => plane[i]?.bind fun row => row[j]?)
      = some (h k i j) := by
  unfold tab3
  rw [tab_getElem?_lt _ hk, Option.some_bind, tab_getElem?_lt _ hi, Option.some_bind,
    tab_getElem?_lt _ hj]

section Wrapper3D

variable {K : Type} [Add K] [Sub K] [Mul K]

/-- One position `(i, j)` of the pass along the `L` dimension (lines 241-247). -/
theorem lpass_cell (w : ℕ → ℤ → K) (L M N : ℕ) (FL : (ℕ → K) → ℕ → K)
    (hFL : ∀ f, fftCPU w (L : ℤ) (tab L f) = some (tab L (FL f)))
    (h : ℕ → ℕ → ℕ → K) (i j : ℕ) (hi : i < M) (hj : j < N) :
    ((allocFill L fun k =>
        (tab3 L M N h)[k]?.bind fun plane => plane[i]?.bind fun row => row[j]?).bind
      fun buffer => (fftCPU w (L : ℤ) buffer).bind fun buffer1 =>
        forLoop L (fun k ddd => buffer1[k]?.bind fun x => store3 ddd k i j x) (tab3 L M N h))
      = some (tab3 L M N fun k i1 j1 =>
          if i1 = i ∧ j1 = j then FL (fun l => h l i j) k else h k i1 j1) := by
  rw [allocFill_eq_tab L _ (fun k => h k i j) (fun k hk => tab3_cell L M N h k i j hk hi hj),
    Option.some_bind, hFL, Option.some_bind]
  have h0 : tab3 L M N h = tab3 L M N fun k i1 j1 =>
      if k < 0 ∧ i1 = i ∧ j1 = j then FL (fun l => h l i j) k else h k i1 j1 :=
    tab3_congr (fun k i1 j1 _ _ _ => by rw [if_neg (by omega)])
  have h1 : (tab3 L M N fun k i1 j1 =>
      if i1 = i ∧ j1 = j then FL (fun l => h l i j) k else h k i1 j1)
      = tab3 L M N fun k i1 j1 =>
        if k < L ∧ i1 = i ∧ j1 = j then FL (fun l => h l i j) k else h k i1 j1 :=
    tab3_congr (fun k i1 j1 hk _ _ => by
      by_cases hc : i1 = i ∧ j1 = j
      · rw [if_pos hc, if_pos ⟨hk, hc⟩]
      · rw [if_neg hc, if_neg (fun hh => hc hh.2)])
  rw [h0, h1]
  apply forLoop_closed L _ (fun m => tab3 L M N fun k i1 j1 =>
    if k < m ∧ i1 = i ∧ j1 = j then FL (fun l => h l i j) k else h k i1 j1)
  intro k hk
  rw [tab_getElem?_lt _ hk, Option.some_bind, store3_tab3 L M N _ k i j _ hk hi hj]
  congr 1
  apply tab3_congr
  intro k1 i1 j1 _ _ _
  by_cases hc : i1 = i ∧ j1 = j
  · by_cases hk1 : k1 = k
    · subst hk1
      rw [if_pos ⟨rfl, hc⟩, if_pos ⟨by omega, hc⟩]
    · rw [if_neg (fun hh => hk1 hh.1)]
      by_cases hk2 : k1 < k
      · rw [if_pos ⟨hk2, hc⟩, if_pos ⟨by omega, hc⟩]
      · rw [if_neg (fun hh => hk2 hh.1), if_neg (fun hh => hk2 (by omega))]
  · rw [if_neg (fun hh => hc hh.2), if_neg (fun hh => hc hh.2), if_neg (fun hh => hc hh.2)]

end Wrapper3D

section Wrapper3DPass

variable {K : Type} [Add K] [Sub K] [Mul K]

/-- The pass along the `L` dimension (lines 238-249) in closed form. -/
theorem lpass_tab3 (w : ℕ → ℤ → K) (L M N : ℕ) (FL : (ℕ → K) → ℕ → K)
    (hFL : ∀ f, fftCPU w (L : ℤ) (tab L f) = some (tab L (FL f)))
    (g : ℕ → ℕ → ℕ → K) :
    forLoop M (fun i d =>
      forLoop N (fun j dd =>
        (allocFill L fun k =>
          dd[k]?.bind fun plane => plane[i]?.bind fun row => row[j]?).bind fun buffer =>
        (fftCPU w (L : ℤ) buffer).bind fun buffer1 =>
        forLoop L (fun k ddd => buffer1[k]?.bind fun x => store3 ddd k i j x) dd) d)
      (tab3 L M N g)
      = some (tab3 L M N fun k i j => FL (fun l => g l i j) k) := by
  have h0 : tab3 L M N g = tab3 L M N fun k i1 j1 =>
      if i1 < 0 ∨ (i1 = 0 ∧ j1 < 0) then FL (fun l => g l i1 j1) k else g k i1 j1 :=
    tab3_congr (fun k i1 j1 _ _ _ => by rw [if_neg (by omega)])
  have h1 : (tab3 L M N fun k i j => FL (fun l => g l i j) k)
      = tab3 L M N fun k i1 j1 =>
        if i1 < M ∨ (i1 = M ∧ j1 < 0) then FL (fun l => g l i1 j1) k else g k i1 j1 :=
    tab3_congr (fun k i1 j1 _ hi _ => by rw [if_pos (Or.inl hi)])
  rw [h0, h1]
  apply forLoop_closed M _ (fun i => tab3 L M N fun k i1 j1 =>
    if i1 < i ∨ (i1 = i ∧ j1 < 0) then FL (fun l => g l i1 j1) k else g k i1 j1)
  intro i hi
  have h2 : (tab3 L M N fun k i1 j1 =>
      if i1 < i + 1 ∨ (i1 = i + 1 ∧ j1 < 0) then FL (fun l => g l i1 j1) k else g k i1 j1)
      = tab3 L M N fun k i1 j1 =>
        if i1 < i ∨ (i1 = i ∧ j1 < N) then FL (fun l => g l i1 j1) k else g k i1 j1 :=
    tab3_congr (fun k i1 j1 _ _ hj => by
      by_cases hc : i1 < i + 1
      · rw [if_pos (Or.inl hc), if_pos (by omega)]
      · rw [if_neg (by omega), if_neg (by omega)])
  rw [h2]
  apply forLoop_closed N _ (fun m => tab3 L M N fun k i1 j1 =>
    if i1 < i ∨ (i1 = i ∧ j1 < m) then FL (fun l => g l i1 j1) k else g k i1 j1)
  intro j hj
  rw [lpass_cell w L M N FL hFL _ i j hi hj]
  congr 1
  apply tab3_congr
  intro k i1 j1 _ _ _
  have e1 : (fun l => if i < i ∨ (i = i ∧ j < j) then FL (fun l => g l i j) l else g l i j)
      = fun l => g l i j := by
    funext l
    rw [if_neg (by omega)]
  by_cases hc : i1 = i ∧ j1 = j
  · obtain ⟨rfl, rfl⟩ := hc
    rw [if_pos ⟨rfl, rfl⟩, if_pos (by omega), e1]
  · rw [if_neg hc]
    by_cases hd : i1 < i ∨ (i1 = i ∧ j1 < j)
    · rw [if_pos hd, if_pos (by omega)]
    · rw [if_neg hd, if_neg (by omega)]

end Wrapper3DPass

theorem cell3_lt {L M N i j k : ℕ} (hi : i < L) (hj : j < M) (hk : k < N) :
    i * N * M + j * N + k < L * M * N := by
  have h1 := cell_lt hj hk
  have h2 := cell_lt (N := M * N) hi h1
  have e0 : i * N * M = i * (M * N) := by ring
  have e1 : L * M * N = L * (M * N) := by ring
  omega

/-- The loops `for (i < l) for (j < m) for (k < n) e[i*n*m + j*n + k] = x i j k`. -/
theorem fill3_tab {β : Type} (len l m n : ℕ) (x : ℕ → ℕ → ℕ → β) (e : ℕ → β)
    (h : l * (m * n) ≤ len) :
    forLoop l (fun i e1 => forLoop m (fun j e2 => forLoop n (fun k e3 =>
        store e3 (i * n * m + j * n + k) (x i j k)) e2) e1) (tab len e)
      = some (tab len fun p =>
          if p < l * (m * n) then x (p / (m * n)) (p % (m * n) / n) (p % (m * n) % n)
          else e p) := by
  have h0 : tab len e = tab len fun p =>
      if p < 0 * (m * n) then x (p / (m * n)) (p % (m * n) / n) (p % (m * n) % n) else e p :=
    tab_congr (fun p _ => by rw [if_neg (by omega)])
  rw [h0]
  apply forLoop_closed l _ (fun i => tab len fun p =>
    if p < i * (m * n) then x (p / (m * n)) (p % (m * n) / n) (p % (m * n) % n) else e p)
  intro i hi
  have h1 : (i + 1) * (m * n) ≤ l * (m * n) := Nat.mul_le_mul_right _ (by omega)
  have h2 : (i + 1) * (m * n) = i * (m * n) + m * n := Nat.succ_mul i _
  have e0 : i * n * m = i * (m * n) := by ring
  rw [fill2_tab len (i * n * m) m n (x i) _ (by omega)]
  congr 1
  apply tab_congr
  intro p _
  by_cases h3 : i * n * m ≤ p ∧ p < i * n * m + m * n
  · obtain ⟨e1, e2⟩ := div_mod_of_eq (m * n) i (p - i * n * m) p (by omega) (by omega)
    rw [if_pos h3, if_pos (by omega), e1, e2]
  · rw [if_neg h3]
    by_cases h4 : p < i * (m * n)
    · rw [if_pos h4, if_pos (by omega)]
    · rw [if_neg h4, if_neg (by omega)]

section Wrapper3DClosed

variable {K : Type} [Add K] [Sub K] [Mul K]

/-- The 3-D branch in closed form, for any description `FN`, `FM`, `FL` of
what the 1-D kernel does on buffers of `N`, `M` and `L` cells. -/
theorem fftCPUWrapper3D_closed (w : ℕ → ℤ → K) (L M N : ℕ) (FN FM FL : (ℕ → K) → ℕ → K)
    (hFN : ∀ f, fftCPU w (N : ℤ) (tab N f) = some (tab N (FN f)))
    (hFM : ∀ f, fftCPU w (M : ℤ) (tab M f) = some (tab M (FM f)))
    (hFL : ∀ f, fftCPU w (L : ℤ) (tab L f) = some (tab L (FL f)))
    (inp e : ℕ → K) :
    fftCPUWrapper3D w L M N (tab (L * M * N) inp) (tab (L * M * N) e)
      = some (tab (L * M * N) fun p =>
          FL (fun l => FM (fun r => FN (fun q => inp (l * N * M + r * N + q))
            (p % (M * N) % N)) (p % (M * N) / N)) (p / (M * N))) := by
  have ha : (allocFill L fun i => allocFill M fun j => allocFill N fun k =>
      (tab (L * M * N) inp)[i * N * M + j * N + k]?)
      = some (tab L fun i => tab M fun j => tab N fun k => inp (i * N * M + j * N + k)) :=
    allocFill_eq_tab _ _ _ (fun i hi => allocFill_eq_tab _ _ _ (fun j hj =>
      allocFill_eq_tab _ _ _ (fun k hk => tab_getElem?_lt inp (cell3_lt hi hj hk))))
  have hb : forEachRow L (forEachRow M (fftCPU w (N : ℤ)))
      (tab L fun i => tab M fun j => tab N fun k => inp (i * N * M + j * N + k))
      = some (tab L fun i => tab M fun j => tab N fun c =>
          FN (fun q => inp (i * N * M + j * N + q)) c) :=
    forEachRow_tab L _ _ _ (fun i _ => forEachRow_tab M _ _ _ (fun j _ => hFN _))
  have hc : forEachRow L (transposeData N M)
      (tab L fun i => tab M fun j => tab N fun c =>
          FN (fun q => inp (i * N * M + j * N + q)) c)
      = some (tab L fun i => tab N fun c => tab M fun j =>
          FN (fun q => inp (i * N * M + j * N + q)) c) :=
    forEachRow_tab L _ _ _ (fun i _ =>
      transposeData_tab N M (fun j c => FN (fun q => inp (i * N * M + j * N + q)) c))
  have hd : forEachRow L (forEachRow N (fftCPU w (M : ℤ)))
      (tab L fun i => tab N fun c => tab M fun j =>
          FN (fun q => inp (i * N * M + j * N + q)) c)
      = some (tab L fun i => tab N fun c => tab M fun b =>
          FM (fun r => FN (fun q => inp (i * N * M + r * N + q)) c) b) :=
    forEachRow_tab L _ _ _ (fun i _ => forEachRow_tab N _ _ _ (fun c _ => hFM _))
  have he : forEachRow L (transposeData M N)
      (tab L fun i => tab N fun c => tab M fun b =>
          FM (fun r => FN (fun q => inp (i * N * M + r * N + q)) c) b)
      = some (tab3 L M N fun i b c =>
          FM (fun r => FN (fun q => inp (i * N * M + r * N + q)) c) b) :=
    forEachRow_tab L _ _ _ (fun i _ =>
      transposeData_tab M N (fun c b => FM (fun r => FN (fun q =>
        inp (i * N * M + r * N + q)) c) b))
  have hf := lpass_tab3 w L M N FL hFL
    (fun i b c => FM (fun r => FN (fun q => inp (i * N * M + r * N + q)) c) b)
  have e1 : L * M * N = L * (M * N) := Nat.mul_assoc L M N
  have hg : (forLoop L (fun i e0 => forLoop M (fun j e1 => forLoop N (fun k e2 =>
      (tab3 L M N fun a b c => FL (fun l => FM (fun r => FN (fun q =>
        inp (l * N * M + r * N + q)) c) b) a)[i]?.bind fun plane =>
      plane[j]?.bind fun row => row[k]?.bind fun x =>
      store e2 (i * N * M + j * N + k) x) e1) e0) (tab (L * M * N) e))
      = some (tab (L * M * N) fun p =>
          FL (fun l => FM (fun r => FN (fun q => inp (l * N * M + r * N + q))
            (p % (M * N) % N)) (p % (M * N) / N)) (p / (M * N))) := by
    rw [forLoop_congr L _ (fun i e0 => forLoop M (fun j e1 => forLoop N (fun k e2 =>
        store e2 (i * N * M + j * N + k)
          (FL (fun l => FM (fun r => FN (fun q =>
            inp (l * N * M + r * N + q)) k) j) i)) e1) e0) _
      (fun i t hi => forLoop_congr M _ _ _ (fun j t1 hj => forLoop_congr N _ _ _
        (fun k t2 hk => by
          unfold tab3
          rw [tab_getElem?_lt _ hi, Option.some_bind, tab_getElem?_lt _ hj, Option.some_bind,
            tab_getElem?_lt _ hk, Option.some_bind])))]
    rw [fill3_tab (L * M * N) L M N
      (fun i j k => FL (fun l => FM (fun r => FN (fun q =>
        inp (l * N * M + r * N + q)) k) j) i) e (by omega)]
    congr 1
    apply tab_congr
    intro p hp
    rw [if_pos (by omega)]
  have hh : (forLoop L (fun i _ =>
      (tab3 L M N fun a b c => FL (fun l => FM (fun r => FN (fun q =>
        inp (l * N * M + r * N + q)) c) b) a)[i]?.bind fun plane => freeRows M plane) ())
      = some () := by
    obtain ⟨t, ht, -⟩ := forLoop_inv (fun _ (_ : Unit) => True) L
      (fun i _ => (tab3 L M N fun a b c => FL (fun l => FM (fun r => FN (fun q =>
        inp (l * N * M + r * N + q)) c) b) a)[i]?.bind fun plane => freeRows M plane)
      () trivial (by
        intro i t hi _
        refine ⟨(), ?_, trivial⟩
        unfold tab3
        beta_reduce
        rw [tab_getElem?_lt _ hi, Option.some_bind, freeRows_ok M _ (by simp)])
    exact ht
  unfold fftCPUWrapper3D
  rw [ha, Option.some_bind, hb, Option.some_bind, hc, Option.some_bind, hd, Option.some_bind,
    he, Option.some_bind, hf, Option.some_bind, hg, Option.some_bind, hh, Option.some_bind]

end Wrapper3DClosed

/-- The triple sum computed by the three passes is the 3-D DFT sum with the
exponentials merged. -/
theorem dftSum3_cexp (L M N : ℕ) (g : ℕ → ℕ → ℕ → ℂ) (a b c : ℕ) :
    dftSum (fun (k : ℕ) (n : ℤ) => Complex.exp (-2 * Real.pi * Complex.I * k / n)) L
        (fun l => dftSum
          (fun (k : ℕ) (n : ℤ) => Complex.exp (-2 * Real.pi * Complex.I * k / n)) M
          (fun r => dftSum
            (fun (k : ℕ) (n : ℤ) => Complex.exp (-2 * Real.pi * Complex.I * k / n)) N
            (fun q => g l r q) c) b) a
      = ∑ p ∈ Finset.range L, ∑ r ∈ Finset.range M, ∑ q ∈ Finset.range N,
          g p r q * Complex.exp (-2 * Real.pi * Complex.I
            * ((a : ℂ) * (p : ℂ) / (L : ℂ) + (b : ℂ) * (r : ℂ) / (M : ℂ)
                + (c : ℂ) * (q : ℂ) / (N : ℂ))) := by
  unfold dftSum
  apply Finset.sum_congr rfl
  intro p _
  rw [Finset.sum_mul]
  apply Finset.sum_congr rfl
  intro r _
  rw [Finset.sum_mul, Finset.sum_mul]
  apply Finset.sum_congr rfl
  intro q _
  rw [mul_assoc, mul_assoc, ← Complex.exp_add, ← Complex.exp_add]
  congr 2
  push_cast
  ring

/-- C3: on the 3-D path with `L > 1`, `M > 1` and `L`, `M`, `N` powers of two
(buffers of `L * M * N` samples) `fftCPUWrapper` returns, and cell
`a * M * N + b * N + c` of `expectedData` holds the 3-D DFT sum over `p < L`,
`r < M`, `q < N` of
`input[p * M * N + r * N + q] * exp(-2 pi i (a p / L + b r / M + c q / N))`. -/
theorem fftCPUWrapper_3D_dft (l p q L M N : ℕ) (hL : L = 2 ^ l) (hM : M = 2 ^ p)
    (hN : N = 2 ^ q) (hL1 : 1 < L) (hM1 : 1 < M)
    (inputData expectedData : List ℂ)
    (hin : inputData.length = L * M * N) (hexp : expectedData.length = L * M * N) :
    ∃ out,
      fftCPUWrapper (fun (k : ℕ) (n : ℤ) => Complex.exp (-2 * Real.pi * Complex.I * k / n))
          L M N ((L * M * N : ℕ) : ℤ) inputData expectedData = some (inputData, out) ∧
      out.length = L * M * N ∧
      ∀ a b c : ℕ, a < L → b < M → c < N →
        out[a * M * N + b * N + c]? =
          some (∑ p ∈ Finset.range L, ∑ r ∈ Finset.range M, ∑ q ∈ Finset.range N,
            inputData.getD (p * M * N + r * N + q) 0 * Complex.exp (-2 * Real.pi * Complex.I
              * ((a : ℂ) * (p : ℂ) / (L : ℂ) + (b : ℂ) * (r : ℂ) / (M : ℂ)
                  + (c : ℂ) * (q : ℂ) / (N : ℂ)))) := by
  have h1 : inputData = tab (L * M * N) (fun t => inputData.getD t 0) := by
    rw [← hin]; exact eq_tab_getD _ 0
  have h2 : expectedData = tab (L * M * N) (fun t => expectedData.getD t 0) := by
    rw [← hexp]; exact eq_tab_getD _ 0
  have h3 := fftCPUWrapper3D_closed
    (fun (k : ℕ) (n : ℤ) => Complex.exp (-2 * Real.pi * Complex.I * k / n)) L M N
    (dftSum _ N) (dftSum _ M) (dftSum _ L)
    (fun f => by rw [hN]; exact fftCPU_tab isTwiddle_cexp q f)
    (fun f => by rw [hM]; exact fftCPU_tab isTwiddle_cexp p f)
    (fun f => by rw [hL]; exact fftCPU_tab isTwiddle_cexp l f)
    (fun t => inputData.getD t 0) (fun t => expectedData.getD t 0)
  rw [← h1, ← h2] at h3
  rw [fftCPUWrapper, if_neg (by omega), if_neg (by omega), h3]
  refine ⟨_, rfl, ?_, ?_⟩
  · simp
  · intro a b c ha hb hc
    have e0 : a * M * N + b * N + c = a * (M * N) + (b * N + c) := by ring
    obtain ⟨e1, e2⟩ := div_mod_of_eq (M * N) a (b * N + c) (a * M * N + b * N + c)
      (cell_lt hb hc) e0
    obtain ⟨e3, e4⟩ := div_mod_of_eq N b c (b * N + c) hc rfl
    have e5 : a * M * N + b * N + c < L * M * N := by
      have := cell3_lt ha hb hc
      have e6 : a * N * M = a * M * N := by ring
      omega
    rw [tab_getElem?_lt _ e5, e1, e2, e3, e4]
    congr 1
    rw [dftSum3_cexp L M N (fun p r q => inputData.getD (p * N * M + r * N + q) 0) a b c]
    apply Finset.sum_congr rfl
    intro p _
    apply Finset.sum_congr rfl
    intro r _
    apply Finset.sum_congr rfl
    intro q _
    rw [show p * N * M = p * M * N by ring]

/-- C3 at `L = M = N = 2` on the input `[1, 2, 3, 4, 5, 6, 7, 8]`. -/
theorem fftCPUWrapper_3D_dft_witness :
    2 = 2 ^ 1 ∧ 1 < 2 ∧ ([1, 2, 3, 4, 5, 6, 7, 8] : List ℂ).length = 2 * 2 * 2 ∧
    ([0, 0, 0, 0, 0, 0, 0, 0] : List ℂ).length = 2 * 2 * 2 ∧
    ∃ out,
      fftCPUWrapper (fun (k : ℕ) (n : ℤ) => Complex.exp (-2 * Real.pi * Complex.I * k / n))
          2 2 2 ((2 * 2 * 2 : ℕ) : ℤ) [1, 2, 3, 4, 5, 6, 7, 8] [0, 0, 0, 0, 0, 0, 0, 0]
        = some ([1, 2, 3, 4, 5, 6, 7, 8], out) ∧
      out.length = 2 * 2 * 2 ∧
      ∀ a b c : ℕ, a < 2 → b < 2 → c < 2 →
        out[a * 2 * 2 + b * 2 + c]? =
          some (∑ p ∈ Finset.range 2, ∑ r ∈ Finset.range 2, ∑ q ∈ Finset.range 2,
            ([1, 2, 3, 4, 5, 6, 7, 8] : List ℂ).getD (p * 2 * 2 + r * 2 + q) 0
              * Complex.exp (-2 * Real.pi * Complex.I
                * ((a : ℂ) * (p : ℂ) / ((2 : ℕ) : ℂ) + (b : ℂ) * (r : ℂ) / ((2 : ℕ) : ℂ)
                    + (c : ℂ) * (q : ℂ) / ((2 : ℕ) : ℂ)))) :=
  ⟨rfl, by decide, rfl, rfl,
    fftCPUWrapper_3D_dft 1 1 1 2 2 2 rfl rfl rfl (by decide) (by decide)
      [1, 2, 3, 4, 5, 6, 7, 8] [0, 0, 0, 0, 0, 0, 0, 0] rfl rfl⟩

/-! ## Dimensionality routing -/

theorem fftCPU_two (w : ℕ → ℤ → ℂ) (a b : ℂ) :
    fftCPU w 2 [a, b] = some [a + b * w 0 2, a - b * w 0 2] := by
  simp [fftCPU, allocFill, combine, forLoop, store]

theorem fftCPU_one {K : Type} [Add K] [Sub K] [Mul K] (w : ℕ → ℤ → K) (v : List K) :
    fftCPU w 1 v = some v := by
  rw [fftCPU, if_neg (by omega)]

theorem range_four : List.range 4 = [0, 1, 2, 3] := by decide

theorem fftCPUWrapper3D_example :
    fftCPUWrapper3D (fun (k : ℕ) (n : ℤ) => Complex.exp (-2 * Real.pi * Complex.I * k / n))
        2 1 2 [0, 0, 1, 0] [0, 0, 0, 0] = some [1, 1, -1, -1] := by
  have h := fftCPUWrapper3D_closed
    (fun (k : ℕ) (n : ℤ) => Complex.exp (-2 * Real.pi * Complex.I * k / n)) 2 1 2
    (fun f j => if j = 0 then f 0 + f 1 else f 0 - f 1) (fun f => f)
    (fun f j => if j = 0 then f 0 + f 1 else f 0 - f 1)
    (fun f => by
      have := fftCPU_two (fun (k : ℕ) (n : ℤ) =>
        Complex.exp (-2 * Real.pi * Complex.I * k / n)) (f 0) (f 1)
      simpa [tab, List.range_succ] using this)
    (fun f => fftCPU_one _ _)
    (fun f => by
      have := fftCPU_two (fun (k : ℕ) (n : ℤ) =>
        Complex.exp (-2 * Real.pi * Complex.I * k / n)) (f 0) (f 1)
      simpa [tab, List.range_succ] using this)
    (fun t => ([0, 0, 1, 0] : List ℂ).getD t 0) (fun _ => 0)
  have e1 : tab (2 * 1 * 2) (fun t => ([0, 0, 1, 0] : List ℂ).getD t 0) = [0, 0, 1, 0] := rfl
  have e2 : tab (2 * 1 * 2) (fun _ => (0 : ℂ)) = [0, 0, 0, 0] := rfl
  rw [e1, e2] at h
  rw [h]
  simp [tab, range_four]

/-- C4 as stated fails at `L = 2`, `M = 1`, `N = 2` (a case the claim routes
to the 3-D transform): on the input `[0, 0, 1, 0]` the wrapper returns
`[1, -1, 1, -1]`, the 1-D transform of length 4, whereas the 3-D procedure
with per-axis transforms of lengths 2, 1, 2 gives `[1, 1, -1, -1]`, and the
3-D DFT sum at cell `(0, 0, 1)`, flat index 1, is `1`. -/
theorem fftCPUWrapper_routing_counterexample :
    fftCPUWrapper (fun (k : ℕ) (n : ℤ) => Complex.exp (-2 * Real.pi * Complex.I * k / n))
        2 1 2 ((2 * 1 * 2 : ℕ) : ℤ) [0, 0, 1, 0] [0, 0, 0, 0]
      = some ([0, 0, 1, 0], [1, -1, 1, -1]) ∧
    fftCPUWrapper3D (fun (k : ℕ) (n : ℤ) => Complex.exp (-2 * Real.pi * Complex.I * k / n))
        2 1 2 [0, 0, 1, 0] [0, 0, 0, 0] = some [1, 1, -1, -1] ∧
    (∑ p ∈ Finset.range 2, ∑ r ∈ Finset.range 1, ∑ q ∈ Finset.range 2,
        ([0, 0, 1, 0] : List ℂ).getD (p * 1 * 2 + r * 2 + q) 0
          * Complex.exp (-2 * Real.pi * Complex.I
            * (((0 : ℕ) : ℂ) * (p : ℂ) / ((2 : ℕ) : ℂ) + ((0 : ℕ) : ℂ) * (r : ℂ) / ((1 : ℕ) : ℂ)
                + ((1 : ℕ) : ℂ) * (q : ℂ) / ((2 : ℕ) : ℂ)))) = 1 ∧
    ([1, -1, 1, -1] : List ℂ)[1]? = some (-1 : ℂ) ∧ (-1 : ℂ) ≠ 1 := by
  refine ⟨?_, fftCPUWrapper3D_example, ?_, rfl, by norm_num⟩
  · simp [fftCPUWrapper, fftCPUWrapper1D, memcpy, fftCPU, allocFill, combine, forLoop, store]
  · simp [Finset.sum_range_succ]

/-- C4 (amended): the branch taken by `fftCPUWrapper`. The 1-D transform (one
`fftCPU` of length `size` over a copy of the whole buffer) is selected exactly
when `M == 1`, whatever `L` is; the 2-D transform over `(M, N)` exactly when
`M > 1` and `L == 1`; the 3-D transform exactly when `M > 1` and `L > 1`; these three cases cover every positive
`L`, `M`. -/
theorem fftCPUWrapper_routing {K : Type} [Add K] [Sub K] [Mul K] (w : ℕ → ℤ → K)
    (L M N : ℕ) (size : ℤ) (inputData expectedData : List K) (hL : 0 < L) (hM : 0 < M) :
    (M = 1 ∨ (1 < M ∧ L = 1) ∨ (1 < M ∧ 1 < L)) ∧
    (M = 1 → fftCPUWrapper w L M N size inputData expectedData
        = ((memcpy expectedData inputData size).bind (fftCPU w size)).map
            fun e => (inputData, e)) ∧
    (1 < M ∧ L = 1 → fftCPUWrapper w L M N size inputData expectedData
        = (fftCPUWrapper2D w M N inputData expectedData).map fun e => (inputData, e)) ∧
    (1 < M ∧ 1 < L → fftCPUWrapper w L M N size inputData expectedData
        = (fftCPUWrapper3D w L M N inputData expectedData).map fun e => (inputData, e)) := by
  refine ⟨by omega, fun h => ?_, fun h => ?_, fun h => ?_⟩
  · rw [fftCPUWrapper, if_pos h]
    rfl
  · rw [fftCPUWrapper, if_neg (by omega), if_pos h.2]
  · rw [fftCPUWrapper, if_neg (by omega), if_neg (by omega)]

/-- C4 (amended) at `L = 2`, `M = 1`, `N = 2`. -/
theorem fftCPUWrapper_routing_witness :
    0 < 2 ∧ 0 < 1 ∧
    ((1 = 1 ∨ (1 < 1 ∧ 2 = 1) ∨ (1 < 1 ∧ 1 < 2)) ∧
    (1 = 1 → fftCPUWrapper
          (fun (k : ℕ) (n : ℤ) => Complex.exp (-2 * Real.pi * Complex.I * k / n))
          2 1 2 4 [0, 0, 1, 0] [0, 0, 0, 0]
        = ((memcpy [0, 0, 0, 0] [0, 0, 1, 0] 4).bind
            (fftCPU (fun (k : ℕ) (n : ℤ) =>
              Complex.exp (-2 * Real.pi * Complex.I * k / n)) 4)).map
            fun e => ([0, 0, 1, 0], e)) ∧
    (1 < 1 ∧ 2 = 1 → fftCPUWrapper
          (fun (k : ℕ) (n : ℤ) => Complex.exp (-2 * Real.pi * Complex.I * k / n))
          2 1 2 4 [0, 0, 1, 0] [0, 0, 0, 0]
        = (fftCPUWrapper2D
            (fun (k : ℕ) (n : ℤ) => Complex.exp (-2 * Real.pi * Complex.I * k / n))
            1 2 [0, 0, 1, 0] [0, 0, 0, 0]).map fun e => ([0, 0, 1, 0], e)) ∧
    (1 < 1 ∧ 1 < 2 → fftCPUWrapper
          (fun (k : ℕ) (n : ℤ) => Complex.exp (-2 * Real.pi * Complex.I * k / n))
          2 1 2 4 [0, 0, 1, 0] [0, 0, 0, 0]
        = (fftCPUWrapper3D
            (fun (k : ℕ) (n : ℤ) => Complex.exp (-2 * Real.pi * Complex.I * k / n))
            2 1 2 [0, 0, 1, 0] [0, 0, 0, 0]).map fun e => ([0, 0, 1, 0], e))) :=
  ⟨by decide, by decide,
    fftCPUWrapper_routing
      (fun (k : ℕ) (n : ℤ) => Complex.exp (-2 * Real.pi * Complex.I * k / n))
      2 1 2 4 [0, 0, 1, 0] [0, 0, 0, 0] (by decide) (by decide)⟩

/-! ## The input buffer is left alone -/

theorem memcpy_full {β : Type} (dst src : List β) (n : ℕ) (hs : src.length = n)
    (hd : dst.length = n) : memcpy dst src (n : ℤ) = some src := by
  unfold memcpy
  rw [if_pos (by omega)]
  have e : ((n : ℕ) : ℤ).toNat = n := by omega
  rw [e, List.take_of_length_le (by omega), List.drop_of_length_le (by omega),
    List.append_nil]

/-- C5: for positive `L`, `M`, `N` and buffers of `L * M * N` samples,
`fftCPUWrapper` returns on each of its three paths, `inputData` is afterwards
what it was before the call, and `expectedData` keeps its length. -/
theorem fftCPUWrapper_input_unchanged {K : Type} [Add K] [Sub K] [Mul K]
    (w : ℕ → ℤ → K) (L M N : ℕ) (hL : 0 < L) (hM : 0 < M) (hN : 0 < N)
    (inputData expectedData : List K)
    (hin : inputData.length = L * M * N) (hexp : expectedData.length = L * M * N) :
    ∃ out, fftCPUWrapper w L M N ((L * M * N : ℕ) : ℤ) inputData expectedData
        = some (inputData, out) ∧ out.length = L * M * N := by
  have hpos : 0 < L * M * N := Nat.mul_pos (Nat.mul_pos hL hM) hN
  obtain ⟨d, -⟩ : ∃ d, inputData[0]? = some d :=
    ⟨_, List.getElem?_eq_getElem (show 0 < inputData.length by omega)⟩
  have h1 : inputData = tab (L * M * N) (fun t => inputData.getD t d) := by
    rw [← hin]; exact eq_tab_getD _ d
  have h2 : expectedData = tab (L * M * N) (fun t => expectedData.getD t d) := by
    rw [← hexp]; exact eq_tab_getD _ d
  rw [fftCPUWrapper]
  by_cases c1 : M = 1
  · rw [if_pos c1, fftCPUWrapper1D, memcpy_full _ _ _ hin hexp, Option.some_bind]
    obtain ⟨out, hout, hlen⟩ := fftCPU_length w (L * M * N) ((L * M * N : ℕ) : ℤ) inputData
      (by omega) (by omega)
    exact ⟨out, by rw [hout]; rfl, by omega⟩
  · rw [if_neg c1]
    by_cases c2 : L = 1
    · have h3 := fftCPUWrapper2D_closed w M N (fftFun w N d) (fftFun w M d)
        (fftCPU_tab_fftFun w N d) (fftCPU_tab_fftFun w M d)
        (fun t => inputData.getD t d) (fun t => expectedData.getD t d)
      have e : L * M * N = M * N := by rw [c2, Nat.one_mul]
      rw [← e, ← h1, ← h2] at h3
      rw [if_pos c2, h3]
      exact ⟨_, rfl, by simp⟩
    · have h3 := fftCPUWrapper3D_closed w L M N (fftFun w N d) (fftFun w M d) (fftFun w L d)
        (fftCPU_tab_fftFun w N d) (fftCPU_tab_fftFun w M d) (fftCPU_tab_fftFun w L d)
        (fun t => inputData.getD t d) (fun t => expectedData.getD t d)
      rw [← h1, ← h2] at h3
      rw [if_neg c2, h3]
      exact ⟨_, rfl, by simp⟩

/-- C5 on the 1-D path `L = M = 1`, `N = 2` with the input `[1, 2]`. -/
theorem fftCPUWrapper_input_unchanged_witness :
    0 < 1 ∧ 0 < 2 ∧ ([1, 2] : List ℂ).length = 1 * 1 * 2 ∧
    ([0, 0] : List ℂ).length = 1 * 1 * 2 ∧
    ∃ out, fftCPUWrapper
        (fun (k : ℕ) (n : ℤ) => Complex.exp (-2 * Real.pi * Complex.I * k / n))
        1 1 2 ((1 * 1 * 2 : ℕ) : ℤ) [1, 2] [0, 0]
        = some ([1, 2], out) ∧ out.length = 1 * 1 * 2 :=
  ⟨by decide, by decide, rfl, rfl,
    fftCPUWrapper_input_unchanged
      (fun (k : ℕ) (n : ℤ) => Complex.exp (-2 * Real.pi * Complex.I * k / n))
      1 1 2 (by decide) (by decide) (by decide) [1, 2] [0, 0] rfl rfl⟩

/-! ## check -/

section CheckLemmas

variable {K F : Type} [Sub K] [LinearOrderedField F]

/-- The accumulation loop returns the two sums. -/
theorem snrSums_tab (creal cimag : K → F) (n : ℕ) (e r : ℕ → K) :
    snrSums creal cimag (n : ℤ) (tab n e) (tab n r)
      = some (∑ i ∈ Finset.range n, (creal (e i) * creal (e i) + cimag (e i) * cimag (e i)),
          ∑ i ∈ Finset.range n,
            (creal (e i - r i) * creal (e i - r i) + cimag (e i - r i) * cimag (e i - r i))) := by
  unfold snrSums
  have e2 : ((n : ℕ) : ℤ).toNat = n := by omega
  rw [e2]
  have h0 : ((0 : F), (0 : F))
      = (∑ i ∈ Finset.range 0, (creal (e i) * creal (e i) + cimag (e i) * cimag (e i)),
          ∑ i ∈ Finset.range 0,
            (creal (e i - r i) * creal (e i - r i)
              + cimag (e i - r i) * cimag (e i - r i))) := by simp
  rw [h0]
  apply forLoop_closed n _ (fun m =>
    (∑ i ∈ Finset.range m, (creal (e i) * creal (e i) + cimag (e i) * cimag (e i)),
      ∑ i ∈ Finset.range m,
        (creal (e i - r i) * creal (e i - r i) + cimag (e i - r i) * cimag (e i - r i))))
  intro i hi
  rw [tab_getElem?_lt _ hi, Option.some_bind, tab_getElem?_lt _ hi, Option.some_bind,
    Finset.sum_range_succ, Finset.sum_range_succ]

end CheckLemmas

/-- `check` on complex buffers, in terms of the two sums `S` and `N`. -/
theorem check_eq (size : ℕ) (expected result : List ℂ)
    (he : expected.length = size) (hr : result.length = size) :
    check Complex.re Complex.im (Real.logb 10) (size : ℤ) expected result
      = some (if Dbl.lt (Dbl.mul (Dbl.fin 10) (Dbl.log10 (Real.logb 10)
          (Dbl.div
            (Dbl.fin (∑ i ∈ Finset.range size,
              ((expected.getD i 0).re ^ 2 + (expected.getD i 0).im ^ 2)))
            (Dbl.fin (∑ i ∈ Finset.range size,
              ((expected.getD i 0 - result.getD i 0).re ^ 2
                + (expected.getD i 0 - result.getD i 0).im ^ 2))))))
          (Dbl.fin 69) then 1 else 0) := by
  have h1 : expected = tab size (fun t => expected.getD t 0) := by
    rw [← he]; exact eq_tab_getD _ 0
  have h2 : result = tab size (fun t => result.getD t 0) := by
    rw [← hr]; exact eq_tab_getD _ 0
  have h3 := snrSums_tab Complex.re Complex.im size (fun t => expected.getD t 0)
    (fun t => result.getD t 0)
  rw [← h1, ← h2] at h3
  unfold check
  rw [h3, Option.some_bind]
  simp only [sq]

/-- C8 (amended): in exact real arithmetic (the rounding of the `float`
subtraction and of the `double` operations abstracted), with `S` the sum of
`re(expected[i])^2 + im(expected[i])^2` and `N` the sum of
`re(expected[i] - result[i])^2 + im(expected[i] - result[i])^2`, both positive,
`check` returns 0 when `10 * log10 (S / N) >= 69` and 1 otherwise. -/
theorem check_snr_threshold (size : ℕ) (expected result : List ℂ)
    (he : expected.length = size) (hr : result.length = size)
    (hS : 0 < ∑ i ∈ Finset.range size,
      ((expected.getD i 0).re ^ 2 + (expected.getD i 0).im ^ 2))
    (hN : 0 < ∑ i ∈ Finset.range size,
      ((expected.getD i 0 - result.getD i 0).re ^ 2
        + (expected.getD i 0 - result.getD i 0).im ^ 2)) :
    check Complex.re Complex.im (Real.logb 10) (size : ℤ) expected result
      = some (if 69 ≤ 10 * Real.logb 10
          ((∑ i ∈ Finset.range size,
              ((expected.getD i 0).re ^ 2 + (expected.getD i 0).im ^ 2))
            / (∑ i ∈ Finset.range size,
              ((expected.getD i 0 - result.getD i 0).re ^ 2
                + (expected.getD i 0 - result.getD i 0).im ^ 2)))
        then 0 else 1) := by
  rw [check_eq size expected result he hr]
  congr 1
  simp only [Dbl.div, Dbl.log10, Dbl.mul, Dbl.lt, ne_eq, hN.ne', not_false_eq_true, if_true,
    div_pos hS hN, decide_eq_true_eq]
  split_ifs with h1 h2 h2
  · exact absurd h2 (not_le.mpr h1)
  · rfl
  · rfl
  · exact absurd (not_lt.mp h1) h2

/-- C8 (amended) at `size = 1`, `expected = [1]`, `result = [0]`: `S = N = 1`, the ratio is
0 dB and the verdict is 1. -/
theorem check_snr_threshold_witness :
    ([1] : List ℂ).length = 1 ∧ ([0] : List ℂ).length = 1 ∧
    (0 < ∑ i ∈ Finset.range 1,
      ((([1] : List ℂ).getD i 0).re ^ 2 + (([1] : List ℂ).getD i 0).im ^ 2)) ∧
    (0 < ∑ i ∈ Finset.range 1,
      ((([1] : List ℂ).getD i 0 - ([0] : List ℂ).getD i 0).re ^ 2
        + (([1] : List ℂ).getD i 0 - ([0] : List ℂ).getD i 0).im ^ 2)) ∧
    check Complex.re Complex.im (Real.logb 10) ((1 : ℕ) : ℤ) ([1] : List ℂ) [0]
      = some (if 69 ≤ 10 * Real.logb 10
          ((∑ i ∈ Finset.range 1,
              ((([1] : List ℂ).getD i 0).re ^ 2 + (([1] : List ℂ).getD i 0).im ^ 2))
            / (∑ i ∈ Finset.range 1,
              ((([1] : List ℂ).getD i 0 - ([0] : List ℂ).getD i 0).re ^ 2
                + (([1] : List ℂ).getD i 0 - ([0] : List ℂ).getD i 0).im ^ 2)))
        then 0 else 1) :=
  ⟨rfl, rfl, by simp, by simp,
    check_snr_threshold 1 [1] [0] rfl rfl (by simp) (by simp)⟩

/-- C9: `check(size, X, X)` returns 0 for every buffer `X` of `size` finite
samples (all-zero or not): the noise sum is 0, the ratio `S / N` is `+inf` or a NaN, and the
comparison `SNR < 69.0` is false. -/
theorem check_self (size : ℕ) (X : List ℂ) (hX : X.length = size) :
    check Complex.re Complex.im (Real.logb 10) (size : ℤ) X X = some 0 := by
  rw [check_eq size X X hX hX]
  congr 1
  have hN : (∑ i ∈ Finset.range size,
      ((X.getD i 0 - X.getD i 0).re ^ 2 + (X.getD i 0 - X.getD i 0).im ^ 2)) = (0 : ℝ) := by
    simp
  rw [hN]
  generalize (∑ i ∈ Finset.range size, ((X.getD i 0).re ^ 2 + (X.getD i 0).im ^ 2)) = s
  rcases lt_trichotomy 0 s with h | h | h
  · simp [Dbl.div, Dbl.log10, Dbl.mul, Dbl.lt, h]
  · subst h
    simp [Dbl.div, Dbl.log10, Dbl.mul, Dbl.lt]
  · simp [Dbl.div, Dbl.log10, Dbl.mul, Dbl.lt, h, not_lt.mpr h.le]

/-- C9 on the all-zero buffer `[0, 0]`. -/
theorem check_self_witness :
    ([0, 0] : List ℂ).length = 2 ∧
    check Complex.re Complex.im (Real.logb 10) ((2 : ℕ) : ℤ) ([0, 0] : List ℂ) [0, 0]
      = some 0 :=
  ⟨rfl, check_self 2 [0, 0] rfl⟩

/-- C10: for `size` in `[1, 2^31)` and a buffer `X` of `size` samples whose real and imaginary
parts lie in `[-10, 10]`, if `Y` is `X` with 1000 added to one sample then
`check(size, X, Y)` returns 1. -/
theorem check_perturbed (size : ℕ) (hint : size < 2 ^ 31)
    (X Y : List ℂ) (hX : X.length = size)
    (hb : ∀ x, x ∈ X → (-10 ≤ x.re ∧ x.re ≤ 10) ∧ (-10 ≤ x.im ∧ x.im ≤ 10))
    (i0 : ℕ) (hi0 : i0 < size) (hY : Y = X.set i0 (X.getD i0 0 + 1000)) :
    check Complex.re Complex.im (Real.logb 10) (size : ℤ) X Y = some 1 := by
  have hYlen : Y.length = size := by rw [hY, List.length_set, hX]
  rw [check_eq size X Y hX hYlen]
  congr 1
  -- the noise sum is 1000^2
  have hdiff : ∀ i, X.getD i 0 - Y.getD i 0 = if i = i0 then -1000 else 0 := by
    intro i
    rw [hY, List.getD_eq_getElem?_getD (X.set i0 _), List.getElem?_set]
    by_cases h : i0 = i
    · subst h
      rw [if_pos rfl, if_pos (by omega), if_pos rfl]
      simp
    · rw [if_neg h, if_neg (fun h1 => h h1.symm), ← List.getD_eq_getElem?_getD]
      simp
  have hN : (∑ i ∈ Finset.range size,
      ((X.getD i 0 - Y.getD i 0).re ^ 2 + (X.getD i 0 - Y.getD i 0).im ^ 2))
      = (1000000 : ℝ) := by
    rw [Finset.sum_eq_single i0]
    · rw [hdiff i0, if_pos rfl]
      norm_num
    · intro i _ hne
      rw [hdiff i, if_neg hne]
      simp
    · intro h
      exact absurd (Finset.mem_range.mpr hi0) h
  -- the signal sum is at most 200 * size
  have hterm : ∀ i, i ∈ Finset.range size →
      (X.getD i 0).re ^ 2 + (X.getD i 0).im ^ 2 ≤ (200 : ℝ) := by
    intro i hi
    have hi1 : i < X.length := by rw [hX]; exact Finset.mem_range.mp hi
    have hx : X.getD i 0 = X[i] := by
      rw [List.getD_eq_getElem?_getD, List.getElem?_eq_getElem hi1]
      rfl
    obtain ⟨⟨h1, h2⟩, h3, h4⟩ := hb _ (List.getElem_mem hi1)
    rw [hx]
    nlinarith
  have hS0 : (0 : ℝ) ≤ ∑ i ∈ Finset.range size,
      ((X.getD i 0).re ^ 2 + (X.getD i 0).im ^ 2) :=
    Finset.sum_nonneg (fun i _ => by positivity)
  have hS1 : (∑ i ∈ Finset.range size, ((X.getD i 0).re ^ 2 + (X.getD i 0).im ^ 2))
      ≤ (200 : ℝ) * size := by
    have := Finset.sum_le_sum hterm
    simpa [mul_comm] using this
  have hS2 : (∑ i ∈ Finset.range size, ((X.getD i 0).re ^ 2 + (X.getD i 0).im ^ 2))
      < (10 : ℝ) ^ 12 := by
    have h3 : (size : ℝ) < 2 ^ 31 := by exact_mod_cast hint
    have h4 : (200 : ℝ) * 2 ^ 31 < 10 ^ 12 := by norm_num
    linarith
  rw [hN]
  generalize (∑ i ∈ Finset.range size, ((X.getD i 0).re ^ 2 + (X.getD i 0).im ^ 2)) = s
    at hS0 hS2
  rcases hS0.lt_or_eq with h | h
  · have h5 : 0 < s / 1000000 := by positivity
    have h6 : s / 1000000 < (10 : ℝ) ^ (6 : ℕ) := by
      rw [div_lt_iff₀ (by norm_num)]
      calc s < 10 ^ 12 := hS2
        _ = 10 ^ 6 * 1000000 := by norm_num
    have h7 : Real.logb 10 (s / 1000000) < 6 := by
      have := Real.logb_lt_logb (b := 10) (by norm_num) h5 h6
      rw [Real.logb_pow, Real.logb_self_eq_one (by norm_num)] at this
      simpa using this
    have h8 : 10 * Real.logb 10 (s / 1000000) < 69 := by linarith
    simp [Dbl.div, Dbl.log10, Dbl.mul, Dbl.lt, h5, h8]
  · subst h
    simp [Dbl.div, Dbl.log10, Dbl.mul, Dbl.lt]

/-- C10 at `size = 2`, `X = [1, 2]`, `Y = [1001, 2]`. -/
theorem check_perturbed_witness :
    2 < 2 ^ 31 ∧ ([1, 2] : List ℂ).length = 2 ∧
    (∀ x, x ∈ ([1, 2] : List ℂ) → (-10 ≤ x.re ∧ x.re ≤ 10) ∧ (-10 ≤ x.im ∧ x.im ≤ 10)) ∧
    0 < 2 ∧
    check Complex.re Complex.im (Real.logb 10) ((2 : ℕ) : ℤ) ([1, 2] : List ℂ)
        (([1, 2] : List ℂ).set 0 (([1, 2] : List ℂ).getD 0 0 + 1000)) = some 1 :=
  ⟨by decide, rfl, by simp; norm_num, by decide,
    check_perturbed 2 (by decide) [1, 2] _ rfl (by simp; norm_num) 0 (by decide) rfl⟩

/-! ## One level of the recursion for every length -/

section KernelStepGen

variable {K : Type} [Add K] [Sub K] [Mul K]

/-- One level of the recursion on a buffer of `n > 1` cells (`n` even or odd),
given what the two recursive calls return; for odd `n` the last cell is not
touched. -/
theorem fftCPU_step_gen (w : ℕ → ℤ → K) (n : ℕ) (hn : 1 < n) (f G U : ℕ → K)
    (hG : fftCPU w ((n / 2 : ℕ) : ℤ) (tab (n / 2) fun i => f (i * 2)) = some (tab (n / 2) G))
    (hU : fftCPU w ((n / 2 : ℕ) : ℤ) (tab (n / 2) fun i => f (i * 2 + 1))
      = some (tab (n / 2) U)) :
    fftCPU w (n : ℤ) (tab n f)
      = some (tab n fun j =>
          if j < n / 2 then G j + U j * w j (n : ℤ)
          else if j < 2 * (n / 2) then G (j - n / 2) - U (j - n / 2) * w (j - n / 2) (n : ℤ)
          else f j) := by
  have e1 : (n : ℤ) / 2 = ((n / 2 : ℕ) : ℤ) := by omega
  have e2 : (((n / 2 : ℕ)) : ℤ).toNat = n / 2 := by omega
  have hg : (allocFill (n / 2) fun i => (tab n f)[i * 2]?)
      = some (tab (n / 2) fun i => f (i * 2)) :=
    allocFill_eq_tab _ _ _ (fun i hi => tab_getElem?_lt f (by omega))
  have hu : (allocFill (n / 2) fun i => (tab n f)[i * 2 + 1]?)
      = some (tab (n / 2) fun i => f (i * 2 + 1)) :=
    allocFill_eq_tab _ _ _ (fun i hi => tab_getElem?_lt f (by omega))
  obtain ⟨out, hout, hlen, hP⟩ := combine_spec w (n : ℤ) (n / 2) (tab (n / 2) G)
    (tab (n / 2) U) (tab n f) (by simp) (by simp) (by simp; omega)
  rw [fftCPU, if_pos (by omega), e1, e2, hg, Option.some_bind, hu, Option.some_bind, hG,
    Option.some_bind, hU, Option.some_bind, hout]
  congr 1
  apply eq_tab_of_getElem? (by simpa using hlen)
  intro j hj
  rw [hP j]
  by_cases h1 : j < n / 2
  · rw [if_pos h1, if_pos h1, tab_getElem?_lt _ h1, tab_getElem?_lt _ h1]
    rfl
  · rw [if_neg h1, if_neg h1]
    by_cases h2 : j < 2 * (n / 2)
    · rw [if_pos h2, if_pos h2, tab_getElem?_lt _ (show j - n / 2 < n / 2 by omega),
        tab_getElem?_lt _ (show j - n / 2 < n / 2 by omega)]
      rfl
    · rw [if_neg h2, if_neg h2, tab_getElem?_lt _ hj]

theorem fftFun_of_eq (w : ℕ → ℤ → K) (n : ℕ) (d : K) (f F : ℕ → K)
    (h : fftCPU w (n : ℤ) (tab n f) = some (tab n F)) (j : ℕ) (hj : j < n) :
    fftFun w n d f j = F j := by
  unfold fftFun
  rw [h]
  exact tab_getD F d hj

/-- The recursion of `fftCPU` read on cells. -/
theorem fftFun_rec (w : ℕ → ℤ → K) (n : ℕ) (hn : 1 < n) (d : K) (f : ℕ → K) (j : ℕ)
    (hj : j < n) :
    fftFun w n d f j =
      if j < n / 2 then
        fftFun w (n / 2) d (fun i => f (i * 2)) j
          + fftFun w (n / 2) d (fun i => f (i * 2 + 1)) j * w j (n : ℤ)
      else if j < 2 * (n / 2) then
        fftFun w (n / 2) d (fun i => f (i * 2)) (j - n / 2)
          - fftFun w (n / 2) d (fun i => f (i * 2 + 1)) (j - n / 2) * w (j - n / 2) (n : ℤ)
      else f j :=
  fftFun_of_eq w n d f _
    (fftCPU_step_gen w n hn f _ _ (fftCPU_tab_fftFun w (n / 2) d _)
      (fftCPU_tab_fftFun w (n / 2) d _)) j hj

theorem fftFun_le_one (w : ℕ → ℤ → K) (n : ℕ) (hn : n ≤ 1) (d : K) (f : ℕ → K) (j : ℕ)
    (hj : j < n) : fftFun w n d f j = f j :=
  fftFun_of_eq w n d f f (by rw [fftCPU, if_neg (by omega)]) j hj

end KernelStepGen

/-! ## Linearity -/

theorem fftFun_linear {K : Type} [CommRing K] (w : ℕ → ℤ → K) (d c : K) (n : ℕ) :
    ∀ (f g : ℕ → K) (j : ℕ), j < n →
      fftFun w n d (fun i => f i + c * g i) j = fftFun w n d f j + c * fftFun w n d g j := by
  induction n using Nat.strong_induction_on with
  | _ n ih =>
    intro f g j hj
    by_cases hn : n ≤ 1
    · rw [fftFun_le_one w n hn d _ j hj, fftFun_le_one w n hn d _ j hj,
        fftFun_le_one w n hn d _ j hj]
    · have hn1 : 1 < n := by omega
      have e0 := ih (n / 2) (by omega) (fun i => f (i * 2)) (fun i => g (i * 2))
      have e1 := ih (n / 2) (by omega) (fun i => f (i * 2 + 1)) (fun i => g (i * 2 + 1))
      rw [fftFun_rec w n hn1 d _ j hj, fftFun_rec w n hn1 d f j hj, fftFun_rec w n hn1 d g j hj]
      by_cases h1 : j < n / 2
      · rw [if_pos h1, if_pos h1, if_pos h1, e0 j h1, e1 j h1]
        ring
      · rw [if_neg h1, if_neg h1, if_neg h1]
        by_cases h2 : j < 2 * (n / 2)
        · rw [if_pos h2, if_pos h2, if_pos h2, e0 _ (by omega), e1 _ (by omega)]
          ring
        · rw [if_neg h2, if_neg h2, if_neg h2]

/-- C11: for every `n`, buffers `a`, `b` of `n` samples and scalar `c`, the
three calls return and `fftCPU(n, a + c*b) = fftCPU(n, a) + c*fftCPU(n, b)`
cell by cell (exact complex arithmetic). -/
theorem fftCPU_linear (n : ℕ) (a b : List ℂ) (c : ℂ)
    (ha : a.length = n) (hb : b.length = n) :
    ∃ A B,
      fftCPU (fun (k : ℕ) (n : ℤ) => Complex.exp (-2 * Real.pi * Complex.I * k / n))
        (n : ℤ) a = some A ∧
      fftCPU (fun (k : ℕ) (n : ℤ) => Complex.exp (-2 * Real.pi * Complex.I * k / n))
        (n : ℤ) b = some B ∧
      A.length = n ∧ B.length = n ∧
      fftCPU (fun (k : ℕ) (n : ℤ) => Complex.exp (-2 * Real.pi * Complex.I * k / n))
        (n : ℤ) (List.zipWith (fun x y => x + c * y) a b)
        = some (List.zipWith (fun x y => x + c * y) A B) := by
  have h1 : a = tab n (fun t => a.getD t 0) := by rw [← ha]; exact eq_tab_getD _ 0
  have h2 : b = tab n (fun t => b.getD t 0) := by rw [← hb]; exact eq_tab_getD _ 0
  have hz : ∀ (f g : ℕ → ℂ),
      List.zipWith (fun x y => x + c * y) (tab n f) (tab n g)
        = tab n (fun i => f i + c * g i) := by
    intro f g
    apply eq_tab_of_getElem? (by simp)
    intro i hi
    rw [List.getElem?_zipWith, tab_getElem?_lt _ hi, tab_getElem?_lt _ hi]
  generalize (fun (k : ℕ) (n : ℤ) => Complex.exp (-2 * Real.pi * Complex.I * k / n)) = w
  refine ⟨tab n (fftFun w n 0 (fun t => a.getD t 0)), tab n (fftFun w n 0 (fun t => b.getD t 0)),
    ?_, ?_, by simp, by simp, ?_⟩
  · conv_lhs => rw [h1]
    exact fftCPU_tab_fftFun _ n 0 _
  · conv_lhs => rw [h2]
    exact fftCPU_tab_fftFun _ n 0 _
  · conv_lhs => rw [h1, h2]
    rw [hz, hz, fftCPU_tab_fftFun _ n 0]
    congr 1
    exact tab_congr (fun j hj => fftFun_linear _ 0 c n _ _ j hj)

/-- C11 at `n = 2`, `a = [1, 2]`, `b = [3, 4]`, `c = 5`. -/
theorem fftCPU_linear_witness :
    ([1, 2] : List ℂ).length = 2 ∧ ([3, 4] : List ℂ).length = 2 ∧
    ∃ A B,
      fftCPU (fun (k : ℕ) (n : ℤ) => Complex.exp (-2 * Real.pi * Complex.I * k / n))
        ((2 : ℕ) : ℤ) [1, 2] = some A ∧
      fftCPU (fun (k : ℕ) (n : ℤ) => Complex.exp (-2 * Real.pi * Complex.I * k / n))
        ((2 : ℕ) : ℤ) [3, 4] = some B ∧
      A.length = 2 ∧ B.length = 2 ∧
      fftCPU (fun (k : ℕ) (n : ℤ) => Complex.exp (-2 * Real.pi * Complex.I * k / n))
        ((2 : ℕ) : ℤ) (List.zipWith (fun x y => x + (5 : ℂ) * y) [1, 2] [3, 4])
        = some (List.zipWith (fun x y => x + (5 : ℂ) * y) A B) :=
  ⟨rfl, rfl, fftCPU_linear 2 [1, 2] [3, 4] 5 rfl rfl⟩

/-! ## The impulse, the butterfly and the base case -/

section Impulse

variable {K : Type} [CommRing K]

theorem fftFun_zero (w : ℕ → ℤ → K) (d : K) (n : ℕ) :
    ∀ (j : ℕ), j < n → fftFun w n d (fun _ => 0) j = 0 := by
  induction n using Nat.strong_induction_on with
  | _ n ih =>
    intro j hj
    by_cases hn : n ≤ 1
    · rw [fftFun_le_one w n hn d _ j hj]
    · have hn1 : 1 < n := by omega
      have e0 := ih (n / 2) (by omega)
      rw [fftFun_rec w n hn1 d _ j hj]
      by_cases h1 : j < n / 2
      · rw [if_pos h1, e0 j h1]
        ring
      · rw [if_neg h1]
        by_cases h2 : j < 2 * (n / 2)
        · rw [if_pos h2, e0 _ (by omega)]
          ring
        · rw [if_neg h2]

theorem impulse_even : (fun i : ℕ => if i * 2 = 0 then (1 : K) else 0)
    = fun i => if i = 0 then 1 else 0 := by
  funext i
  by_cases h : i = 0
  · rw [if_pos h, if_pos (by omega)]
  · rw [if_neg h, if_neg (by omega)]

theorem impulse_odd : (fun i : ℕ => if i * 2 + 1 = 0 then (1 : K) else 0) = fun _ => 0 := by
  funext i
  rw [if_neg (by omega)]

/-- On a power-of-two length the transform of the impulse is 1 in every cell,
whatever the twiddle factors are. -/
theorem fftFun_impulse_pow (w : ℕ → ℤ → K) (d : K) (k : ℕ) :
    ∀ (j : ℕ), j < 2 ^ k → fftFun w (2 ^ k) d (fun i => if i = 0 then 1 else 0) j = 1 := by
  induction k with
  | zero =>
    intro j hj
    rw [fftFun_le_one w _ (by simp) d _ j hj, if_pos (by simpa using hj)]
  | succ k ih =>
    intro j hj
    have hpos : 0 < 2 ^ k := Nat.pow_pos (by omega)
    have e1 : 2 ^ (k + 1) / 2 = 2 ^ k := by rw [pow_succ]; omega
    rw [fftFun_rec w _ (by rw [pow_succ]; omega) d _ j hj, e1]
    rw [impulse_even, impulse_odd]
    by_cases h1 : j < 2 ^ k
    · rw [if_pos h1, ih j h1, fftFun_zero w d _ j h1]
      ring
    · have h2 : j < 2 * 2 ^ k := by rw [pow_succ] at hj; omega
      rw [if_neg h1, if_pos h2, ih _ (by omega), fftFun_zero w d _ _ (by omega)]
      ring

/-- On a length that is not a power of two the last cell of the transform of
the impulse is 0. -/
theorem fftFun_impulse_last (w : ℕ → ℤ → K) (d : K) (n : ℕ) :
    1 < n → (¬ ∃ k, n = 2 ^ k) →
      fftFun w n d (fun i => if i = 0 then 1 else 0) (n - 1) = 0 := by
  induction n using Nat.strong_induction_on with
  | _ n ih =>
    intro hn hpow
    rw [fftFun_rec w n hn d _ (n - 1) (by omega)]
    rw [impulse_even, impulse_odd, if_neg (by omega)]
    by_cases h2 : n - 1 < 2 * (n / 2)
    · have hh : ¬ ∃ k, n / 2 = 2 ^ k := by
        rintro ⟨k, hk⟩
        exact hpow ⟨k + 1, by rw [pow_succ, ← hk]; omega⟩
      have hh1 : 1 < n / 2 := by
        by_contra hc
        have : n / 2 = 1 := by omega
        exact hh ⟨0, by simpa using this⟩
      have e1 : n - 1 - n / 2 = n / 2 - 1 := by omega
      rw [if_pos h2, e1, ih (n / 2) (by omega) hh1 hh, fftFun_zero w d _ _ (by omega)]
      ring
    · rw [if_neg h2, if_neg (by omega)]

end Impulse

theorem impulse_list (n : ℕ) (hn : 0 < n) :
    ((1 : ℂ) :: List.replicate (n - 1) 0) = tab n (fun i => if i = 0 then 1 else 0) := by
  apply eq_tab_of_getElem? (by simp; omega)
  intro i hi
  cases i with
  | zero => simp
  | succ i =>
    rw [List.getElem?_cons_succ, List.getElem?_replicate, if_pos (by omega), if_neg (by omega)]

/-- C12: for every power of two `2 ^ k`, `fftCPU` applied to the unit impulse
`[1, 0, ..., 0]` returns the all-ones buffer, exactly (for any values of the
twiddle factors, so in particular with `cexpf = exp`); the instance `n = 4` is
`[1, 0, 0, 0] -> [1, 1, 1, 1]`. -/
theorem fftCPU_impulse (w : ℕ → ℤ → ℂ) (k : ℕ) :
    fftCPU w ((2 : ℤ) ^ k) ((1 : ℂ) :: List.replicate (2 ^ k - 1) 0)
      = some (List.replicate (2 ^ k) 1) ∧
    fftCPU (fun (k : ℕ) (n : ℤ) => Complex.exp (-2 * Real.pi * Complex.I * k / n)) 4
      [1, 0, 0, 0] = some [1, 1, 1, 1] := by
  have main : ∀ (w : ℕ → ℤ → ℂ) (k : ℕ),
      fftCPU w ((2 : ℤ) ^ k) ((1 : ℂ) :: List.replicate (2 ^ k - 1) 0)
        = some (List.replicate (2 ^ k) 1) := by
    intro w k
    have h := fftCPU_tab_fftFun w (2 ^ k) 0 (fun i => if i = 0 then 1 else 0)
    rw [← impulse_list _ (Nat.pow_pos (by omega))] at h
    push_cast at h
    rw [h]
    congr 1
    symm
    apply eq_tab_of_getElem? (by simp)
    intro j hj
    rw [List.getElem?_replicate, if_pos hj, fftFun_impulse_pow w 0 k j hj]
  exact ⟨main w k, main _ 2⟩

/-- C14: `fftCPU(1, [x])` leaves the buffer equal to `[x]`; the call touches no
cell, since it also returns on the empty buffer. -/
theorem fftCPU_base_case (x : ℂ) :
    fftCPU (fun (k : ℕ) (n : ℤ) => Complex.exp (-2 * Real.pi * Complex.I * k / n)) 1 [x]
      = some [x] ∧
    fftCPU (fun (k : ℕ) (n : ℤ) => Complex.exp (-2 * Real.pi * Complex.I * k / n)) 1
      ([] : List ℂ) = some [] :=
  ⟨fftCPU_one _ _, fftCPU_one _ _⟩

/-- C15: for every `n > 1` that is not a power of two there is a buffer of `n`
samples (the unit impulse) on which `fftCPU(n, .)` returns normally with an
output that differs from the length-`n` DFT: the last cell holds 0, the DFT
value there is 1. -/
theorem fftCPU_wrong_off_powers_of_two (n : ℕ) (hn : 1 < n) (hpow : ¬ ∃ k, n = 2 ^ k) :
    ∃ v : List ℂ, v.length = n ∧ ∃ out,
      fftCPU (fun (k : ℕ) (n : ℤ) => Complex.exp (-2 * Real.pi * Complex.I * k / n))
        (n : ℤ) v = some out ∧
      out.length = n ∧
      ∃ j : ℕ, j < n ∧ out[j]? ≠ some (∑ t ∈ Finset.range n,
        v.getD t 0 * Complex.exp (-2 * Real.pi * Complex.I * (j : ℂ) * (t : ℂ) / (n : ℂ))) := by
  refine ⟨(1 : ℂ) :: List.replicate (n - 1) 0, by simp; omega, ?_⟩
  rw [impulse_list n (by omega)]
  refine ⟨_, fftCPU_tab_fftFun _ n 0 _, by simp, n - 1, by omega, ?_⟩
  rw [tab_getElem?_lt _ (show n - 1 < n by omega), fftFun_impulse_last _ 0 n hn hpow,
    Finset.sum_eq_single 0]
  · rw [tab_getD _ 0 (show 0 < n by omega)]
    simp
  · intro t ht hne
    rw [tab_getD _ 0 (Finset.mem_range.mp ht), if_neg hne, zero_mul]
  · intro h
    exact absurd (Finset.mem_range.mpr (show 0 < n by omega)) h

/-- C15 at `n = 3`. -/
theorem fftCPU_wrong_off_powers_of_two_witness :
    1 < 3 ∧ (¬ ∃ k, 3 = 2 ^ k) ∧
    ∃ v : List ℂ, v.length = 3 ∧ ∃ out,
      fftCPU (fun (k : ℕ) (n : ℤ) => Complex.exp (-2 * Real.pi * Complex.I * k / n))
        ((3 : ℕ) : ℤ) v = some out ∧
      out.length = 3 ∧
      ∃ j : ℕ, j < 3 ∧ out[j]? ≠ some (∑ t ∈ Finset.range 3,
        v.getD t 0
          * Complex.exp (-2 * Real.pi * Complex.I * (j : ℂ) * (t : ℂ) / ((3 : ℕ) : ℂ))) :=
  have h3 : ¬ ∃ k, 3 = 2 ^ k := by
    rintro ⟨k, hk⟩
    cases k with
    | zero => simp at hk
    | succ k => rw [pow_succ] at hk; omega
  ⟨by decide, h3, fftCPU_wrong_off_powers_of_two 3 (by decide) h3⟩

/-! ## The three branches agree where they overlap -/

/-- C16: a unit axis is a no-op. For every `M` and `N >= 1` the 3-D procedure with `L = 1`
returns the same `expectedData` as the 2-D procedure (buffers of `M * N`
samples), and the 2-D procedure with `M = 1` returns the same `expectedData` as
the 1-D branch, `fftCPU` of length `N` on a copy of the input (buffers of `N`
samples). -/
theorem fftCPUWrapper_paths_agree {K : Type} [Add K] [Sub K] [Mul K] (w : ℕ → ℤ → K)
    (M N : ℕ) (hN : 1 ≤ N) (inputData expectedData input1 expected1 : List K)
    (hin : inputData.length = M * N) (hexp : expectedData.length = M * N)
    (hin1 : input1.length = N) (hexp1 : expected1.length = N) :
    (∃ out, fftCPUWrapper3D w 1 M N inputData expectedData = some out ∧
      fftCPUWrapper2D w M N inputData expectedData = some out) ∧
    (∃ out, fftCPUWrapper2D w 1 N input1 expected1 = some out ∧
      fftCPUWrapper1D w (N : ℤ) input1 expected1 = some out) := by
  obtain ⟨d, -⟩ : ∃ d, input1[0]? = some d :=
    ⟨_, List.getElem?_eq_getElem (show 0 < input1.length by omega)⟩
  have hone : ∀ f : ℕ → K, fftCPU w ((1 : ℕ) : ℤ) (tab 1 f) = some (tab 1 ((fun g => g) f)) := by
    intro f
    rw [Nat.cast_one]
    exact fftCPU_one w _
  constructor
  · have h1 : inputData = tab (M * N) (fun t => inputData.getD t d) := by
      rw [← hin]; exact eq_tab_getD _ d
    have h2 : expectedData = tab (M * N) (fun t => expectedData.getD t d) := by
      rw [← hexp]; exact eq_tab_getD _ d
    have h3 := fftCPUWrapper3D_closed w 1 M N (fftFun w N d) (fftFun w M d) (fun g => g)
      (fftCPU_tab_fftFun w N d) (fftCPU_tab_fftFun w M d) hone
      (fun t => inputData.getD t d) (fun t => expectedData.getD t d)
    have h4 := fftCPUWrapper2D_closed w M N (fftFun w N d) (fftFun w M d)
      (fftCPU_tab_fftFun w N d) (fftCPU_tab_fftFun w M d)
      (fun t => inputData.getD t d) (fun t => expectedData.getD t d)
    have e : 1 * M * N = M * N := by rw [Nat.one_mul]
    rw [e, ← h1, ← h2] at h3
    rw [← h1, ← h2] at h4
    refine ⟨_, h3, ?_⟩
    rw [h4]
    congr 1
    apply tab_congr
    intro p hp
    have e1 : p / (M * N) = 0 := Nat.div_eq_of_lt hp
    have e2 : p % (M * N) = p := Nat.mod_eq_of_lt hp
    simp only [e1, e2, Nat.zero_mul, Nat.zero_add]
  · have h1 : input1 = tab N (fun t => input1.getD t d) := by
      rw [← hin1]; exact eq_tab_getD _ d
    have h2 : expected1 = tab N (fun t => expected1.getD t d) := by
      rw [← hexp1]; exact eq_tab_getD _ d
    have h3 := fftCPUWrapper2D_closed w 1 N (fftFun w N d) (fun g => g)
      (fftCPU_tab_fftFun w N d) hone
      (fun t => input1.getD t d) (fun t => expected1.getD t d)
    have e : 1 * N = N := Nat.one_mul N
    rw [e, ← h1, ← h2] at h3
    refine ⟨_, h3, ?_⟩
    rw [fftCPUWrapper1D, memcpy_full _ _ _ hin1 hexp1, Option.some_bind]
    conv_lhs => rw [h1]
    rw [fftCPU_tab_fftFun w N d]
    congr 1
    apply tab_congr
    intro p hp
    have e1 : p / N = 0 := Nat.div_eq_of_lt hp
    have e2 : p % N = p := Nat.mod_eq_of_lt hp
    simp only [e1, e2, Nat.zero_mul, Nat.zero_add]

/-- C16 at `M = 2`, `N = 2`. -/
theorem fftCPUWrapper_paths_agree_witness :
    1 ≤ 2 ∧ ([1, 2, 3, 4] : List ℂ).length = 2 * 2 ∧ ([0, 0, 0, 0] : List ℂ).length = 2 * 2 ∧
    ([1, 2] : List ℂ).length = 2 ∧ ([0, 0] : List ℂ).length = 2 ∧
    (∃ out, fftCPUWrapper3D
        (fun (k : ℕ) (n : ℤ) => Complex.exp (-2 * Real.pi * Complex.I * k / n))
        1 2 2 [1, 2, 3, 4] [0, 0, 0, 0] = some out ∧
      fftCPUWrapper2D
        (fun (k : ℕ) (n : ℤ) => Complex.exp (-2 * Real.pi * Complex.I * k / n))
        2 2 [1, 2, 3, 4] [0, 0, 0, 0] = some out) ∧
    (∃ out, fftCPUWrapper2D
        (fun (k : ℕ) (n : ℤ) => Complex.exp (-2 * Real.pi * Complex.I * k / n))
        1 2 [1, 2] [0, 0] = some out ∧
      fftCPUWrapper1D
        (fun (k : ℕ) (n : ℤ) => Complex.exp (-2 * Real.pi * Complex.I * k / n))
        ((2 : ℕ) : ℤ) [1, 2] [0, 0] = some out) :=
  ⟨by decide, rfl, rfl, rfl, rfl,
    fftCPUWrapper_paths_agree
      (fun (k : ℕ) (n : ℤ) => Complex.exp (-2 * Real.pi * Complex.I * k / n))
      2 2 (by decide) [1, 2, 3, 4] [0, 0, 0, 0] [1, 2] [0, 0] rfl rfl rfl rfl⟩

/-! ## generateTestData -/

/-- Whatever `rand()` returns, `generateTestData` leaves `i` in cell `i`: the
second assignment of the loop body (line 86) overwrites the random sample. -/
theorem generateTestData_tab {K F : Type} [DivisionRing F] (mkComplex : F → F → K)
    (ofInt : ℤ → K) (RAND_MAX : ℤ) (rand : ℕ → ℤ) (size : ℕ) (e : ℕ → K) :
    generateTestData mkComplex ofInt RAND_MAX rand (size : ℤ) (tab size e)
      = some (tab size fun i => ofInt (i : ℤ)) := by
  unfold generateTestData
  have e2 : ((size : ℕ) : ℤ).toNat = size := by omega
  have h0 : tab size e = tab size fun p => if p < 0 then ofInt (p : ℤ) else e p :=
    tab_congr (fun p _ => by rw [if_neg (by omega)])
  have h1 : (tab size fun i => ofInt (i : ℤ))
      = tab size fun p => if p < size then ofInt (p : ℤ) else e p :=
    tab_congr (fun p hp => by rw [if_pos hp])
  rw [e2, h0, h1]
  apply forLoop_closed size _ (fun m => tab size fun p => if p < m then ofInt (p : ℤ) else e p)
  intro i hi
  dsimp only
  rw [store_tab _ _ _ _ hi, Option.some_bind, store_tab _ _ _ _ hi]
  congr 1
  apply tab_congr
  intro p _
  by_cases h : p = i
  · subst h
    rw [if_pos rfl, if_pos (by omega)]
  · rw [if_neg h, if_neg h]
    by_cases h2 : p < i
    · rw [if_pos h2, if_pos (by omega)]
    · rw [if_neg h2, if_neg (by omega)]

/-- C17 fails on the code at `size = 12`: whatever `rand()` returns and
whatever `RAND_MAX` is, `generateTestData` leaves `0, 1, ..., 11` in the buffer,
and the real part of the last sample is 11, outside `[-10, 10]`. -/
theorem generateTestData_twelve (RAND_MAX : ℤ) (rand : ℕ → ℤ) :
    generateTestData (fun (re im : ℝ) => (re : ℂ) + Complex.I * (im : ℂ))
        (fun i => (i : ℂ)) RAND_MAX rand 12 (List.replicate 12 0)
      = some [0, 1, 2, 3, 4, 5, 6, 7, 8, 9, 10, 11] ∧
    ([0, 1, 2, 3, 4, 5, 6, 7, 8, 9, 10, 11] : List ℂ)[11]? = some (11 : ℂ) ∧
    ¬ ((11 : ℂ).re ≤ 10) := by
  refine ⟨?_, rfl, ?_⟩
  · have h := generateTestData_tab (fun (re im : ℝ) => (re : ℂ) + Complex.I * (im : ℂ))
      (fun i => (i : ℂ)) RAND_MAX rand 12 (fun _ => 0)
    have e1 : tab 12 (fun _ => (0 : ℂ)) = List.replicate 12 0 := rfl
    rw [e1] at h
    rw [show (12 : ℤ) = ((12 : ℕ) : ℤ) by norm_num, h]
    simp [tab, List.range_succ]
  · norm_num

/-! ## Termination and recursion depth -/

section Depth

variable {K : Type} [Add K] [Sub K] [Mul K]

/-- The instrumented kernel returns what `fftCPU` returns, together with the
depth `log2 n` (rounded down). -/
theorem fftCPUDepth_eq (w : ℕ → ℤ → K) (m : ℕ) :
    ∀ (n : ℤ) (values : List K), n.toNat ≤ m → n ≤ values.length →
      ∃ out, fftCPUDepth w n values = some (out, Nat.log 2 n.toNat) ∧
        fftCPU w n values = some out := by
  induction m with
  | zero =>
    intro n values hm _
    have h0 : n.toNat = 0 := by omega
    rw [fftCPUDepth, fftCPU, if_neg (by omega), if_neg (by omega), h0, Nat.log_zero_right]
    exact ⟨values, rfl, rfl⟩
  | succ m ih =>
    intro n values hm hn
    rw [fftCPUDepth, fftCPU]
    by_cases h1 : 1 < n
    · rw [if_pos h1, if_pos h1]
      obtain ⟨g, hg, hgl, -⟩ := allocFill_spec (n / 2).toNat (fun i => values[i * 2]?)
        (fun i hi => ⟨_, List.getElem?_eq_getElem (show i * 2 < values.length by omega)⟩)
      obtain ⟨u, hu, hul, -⟩ := allocFill_spec (n / 2).toNat (fun i => values[i * 2 + 1]?)
        (fun i hi => ⟨_, List.getElem?_eq_getElem (show i * 2 + 1 < values.length by omega)⟩)
      obtain ⟨g1, hg1, hg2⟩ := ih (n / 2) g (by omega) (by omega)
      obtain ⟨u1, hu1, hu2⟩ := ih (n / 2) u (by omega) (by omega)
      obtain ⟨g1l, hg1l, hg1len⟩ := fftCPU_length w m (n / 2) g (by omega) (by omega)
      obtain ⟨u1l, hu1l, hu1len⟩ := fftCPU_length w m (n / 2) u (by omega) (by omega)
      have eg : g1l = g1 := Option.some.inj (hg1l.symm.trans hg2)
      have eu : u1l = u1 := Option.some.inj (hu1l.symm.trans hu2)
      subst eg eu
      obtain ⟨out, hout, -, -⟩ := combine_spec w n (n / 2).toNat g1l u1l values
        (by omega) (by omega) (by omega)
      have hlog : Nat.log 2 n.toNat = 1 + Nat.log 2 (n / 2).toNat := by
        have e : (n / 2).toNat = n.toNat / 2 := by omega
        rw [Nat.log_of_one_lt_of_le (by omega) (show 2 ≤ n.toNat by omega), e, Nat.add_comm]
      refine ⟨out, ?_, ?_⟩
      · rw [hg, Option.some_bind, hu, Option.some_bind, hg1, Option.some_bind, hu1,
          Option.some_bind]
        simp only [hout, Option.map_some', max_self, hlog]
      · rw [hg, Option.some_bind, hu, Option.some_bind, hg2, Option.some_bind, hu2,
          Option.some_bind, hout]
    · have h0 : Nat.log 2 n.toNat = 0 := Nat.log_of_lt (by omega)
      rw [if_neg h1, if_neg h1, h0]
      exact ⟨values, rfl, rfl⟩

end Depth

/-- C18: `fftCPU` returns for every integer `n` (on a buffer of at least `n`
cells): the argument of the recursive calls is `n / 2`, which is smaller than
`n` whenever the guard `n > 1` holds. The recursion depth on `n = 2 ^ k` is
exactly `k`. -/
theorem fftCPU_terminates_depth {K : Type} [Add K] [Sub K] [Mul K] (w : ℕ → ℤ → K)
    (n : ℤ) (values : List K) (hn : n ≤ values.length) :
    ∃ out depth, fftCPUDepth w n values = some (out, depth) ∧
      fftCPU w n values = some out ∧
      (∀ k : ℕ, n = 2 ^ k → depth = k) ∧
      (1 < n → (n / 2).toNat < n.toNat) := by
  obtain ⟨out, h1, h2⟩ := fftCPUDepth_eq w n.toNat n values (le_refl _) hn
  refine ⟨out, _, h1, h2, ?_, fun h => by omega⟩
  intro k hk
  have e : n.toNat = 2 ^ k := by
    rw [hk]
    have : ((2 : ℤ) ^ k) = ((2 ^ k : ℕ) : ℤ) := by push_cast; rfl
    rw [this, Int.toNat_natCast]
  rw [e, Nat.log_pow (by omega)]

/-- C18 at `n = 4` on the buffer `[1, 2, 3, 4]`. -/
theorem fftCPU_terminates_depth_witness :
    (4 : ℤ) ≤ ([1, 2, 3, 4] : List ℂ).length ∧
    ∃ out depth,
      fftCPUDepth (fun (k : ℕ) (n : ℤ) => Complex.exp (-2 * Real.pi * Complex.I * k / n))
        4 [1, 2, 3, 4] = some (out, depth) ∧
      fftCPU (fun (k : ℕ) (n : ℤ) => Complex.exp (-2 * Real.pi * Complex.I * k / n))
        4 [1, 2, 3, 4] = some out ∧
      (∀ k : ℕ, (4 : ℤ) = 2 ^ k → depth = k) ∧
      ((1 : ℤ) < 4 → ((4 : ℤ) / 2).toNat < (4 : ℤ).toNat) :=
  ⟨by decide,
    fftCPU_terminates_depth
      (fun (k : ℕ) (n : ℤ) => Complex.exp (-2 * Real.pi * Complex.I * k / n))
      4 [1, 2, 3, 4] (by decide)⟩

/-! ## The call sites of transposeData -/

theorem mem_tab {β : Type} {n : ℕ} {f : ℕ → β} {x : β} (h : x ∈ tab n f) :
    ∃ i, i < n ∧ f i = x := by
  unfold tab at h
  obtain ⟨i, hi, rfl⟩ := List.mem_map.mp h
  exact ⟨i, List.mem_range.mp hi, rfl⟩

/-- C19: the parameters of `transposeData` are the dimensions of the result.
For `data` with `d2` rows of `d1` samples, `transposeData(d1, d2, data)` makes
only in-range accesses and replaces `data` by an array with `d1` rows of `d2`
samples, `new[i][j] = old[j][i]`. Each call site of `fftCPUWrapper` hands over
an array of that shape: on the 2-D path `M` rows of `N` samples to
`transposeData(N, M, .)` and then `N` rows of `M` samples to
`transposeData(M, N, .)`, on the 3-D path the same for every plane. -/
theorem transposeData_call_sites (d1 d2 : ℕ) (data : List (List ℂ))
    (hlen : data.length = d2) (hrow : ∀ row, row ∈ data → row.length = d1)
    (L M N : ℕ) (input2 input3 : List ℂ)
    (hin2 : input2.length = M * N) (hin3 : input3.length = L * M * N) :
    (∃ new, transposeData d1 d2 data = some new ∧ new.length = d1 ∧
      (∀ row, row ∈ new → row.length = d2) ∧
      ∀ i j, i < d1 → j < d2 →
        ∃ x, (new[i]?.bind fun r => r[j]?) = some x ∧
          (data[j]?.bind fun r => r[i]?) = some x) ∧
    (∃ a1 a2 a3,
      ((allocFill M fun i => allocFill N fun j => input2[i * N + j]?).bind
        (forEachRow M (fftCPU
          (fun (k : ℕ) (n : ℤ) => Complex.exp (-2 * Real.pi * Complex.I * k / n)) N)))
        = some a1 ∧
      a1.length = M ∧ (∀ row, row ∈ a1 → row.length = N) ∧
      transposeData N M a1 = some a2 ∧
      forEachRow N (fftCPU
          (fun (k : ℕ) (n : ℤ) => Complex.exp (-2 * Real.pi * Complex.I * k / n)) M) a2
        = some a3 ∧
      a3.length = N ∧ (∀ row, row ∈ a3 → row.length = M) ∧
      ∃ a4, transposeData M N a3 = some a4) ∧
    (∃ b1 b2 b3,
      ((allocFill L fun i => allocFill M fun j => allocFill N fun k =>
          input3[i * N * M + j * N + k]?).bind
        (forEachRow L (forEachRow M (fftCPU
          (fun (k : ℕ) (n : ℤ) => Complex.exp (-2 * Real.pi * Complex.I * k / n)) N))))
        = some b1 ∧
      b1.length = L ∧
      (∀ plane, plane ∈ b1 → plane.length = M ∧ ∀ row, row ∈ plane → row.length = N) ∧
      forEachRow L (transposeData N M) b1 = some b2 ∧
      forEachRow L (forEachRow N (fftCPU
          (fun (k : ℕ) (n : ℤ) => Complex.exp (-2 * Real.pi * Complex.I * k / n)) M)) b2
        = some b3 ∧
      b3.length = L ∧
      (∀ plane, plane ∈ b3 → plane.length = N ∧ ∀ row, row ∈ plane → row.length = M) ∧
      ∃ b4, forEachRow L (transposeData M N) b3 = some b4) := by
  generalize (fun (k : ℕ) (n : ℤ) => Complex.exp (-2 * Real.pi * Complex.I * k / n)) = w
  refine ⟨transposeData_shape d1 d2 data hlen hrow, ?_, ?_⟩
  · have h1 : input2 = tab (M * N) (fun t => input2.getD t 0) := by
      rw [← hin2]; exact eq_tab_getD _ 0
    have ha : (allocFill M fun i => allocFill N fun j => input2[i * N + j]?)
        = some (tab M fun i => tab N fun j => input2.getD (i * N + j) 0) := by
      conv_lhs => rw [h1]
      exact allocFill_eq_tab _ _ _ (fun i hi => allocFill_eq_tab _ _ _
        (fun j hj => tab_getElem?_lt _ (cell_lt hi hj)))
    have hb : forEachRow M (fftCPU w (N : ℤ))
        (tab M fun i => tab N fun j => input2.getD (i * N + j) 0)
        = some (tab M fun i => tab N fun b =>
            fftFun w N 0 (fun c => input2.getD (i * N + c) 0) b) :=
      forEachRow_tab M _ _ _ (fun i _ => fftCPU_tab_fftFun w N 0 _)
    have hc := transposeData_tab N M
      (fun i b => fftFun w N 0 (fun c => input2.getD (i * N + c) 0) b)
    have hd : forEachRow N (fftCPU w (M : ℤ))
        (tab N fun b => tab M fun r => fftFun w N 0 (fun c => input2.getD (r * N + c) 0) b)
        = some (tab N fun b => tab M fun a =>
            fftFun w M 0 (fun r => fftFun w N 0 (fun c => input2.getD (r * N + c) 0) b) a) :=
      forEachRow_tab N _ _ _ (fun b _ => fftCPU_tab_fftFun w M 0 _)
    have he := transposeData_tab M N
      (fun b a => fftFun w M 0 (fun r => fftFun w N 0 (fun c => input2.getD (r * N + c) 0) b) a)
    refine ⟨_, _, _, by rw [ha, Option.some_bind, hb], by simp, ?_, hc, hd, by simp, ?_,
      _, he⟩
    · intro row hmem
      obtain ⟨i, -, rfl⟩ := mem_tab hmem
      simp
    · intro row hmem
      obtain ⟨i, -, rfl⟩ := mem_tab hmem
      simp
  · have h1 : input3 = tab (L * M * N) (fun t => input3.getD t 0) := by
      rw [← hin3]; exact eq_tab_getD _ 0
    have ha : (allocFill L fun i => allocFill M fun j => allocFill N fun k =>
        input3[i * N * M + j * N + k]?)
        = some (tab L fun i => tab M fun j => tab N fun k =>
            input3.getD (i * N * M + j * N + k) 0) := by
      conv_lhs => rw [h1]
      exact allocFill_eq_tab _ _ _ (fun i hi => allocFill_eq_tab _ _ _ (fun j hj =>
        allocFill_eq_tab _ _ _ (fun k hk => tab_getElem?_lt _ (cell3_lt hi hj hk))))
    have hb : forEachRow L (forEachRow M (fftCPU w (N : ℤ)))
        (tab L fun i => tab M fun j => tab N fun k => input3.getD (i * N * M + j * N + k) 0)
        = some (tab L fun i => tab M fun j => tab N fun c =>
            fftFun w N 0 (fun q => input3.getD (i * N * M + j * N + q) 0) c) :=
      forEachRow_tab L _ _ _ (fun i _ => forEachRow_tab M _ _ _
        (fun j _ => fftCPU_tab_fftFun w N 0 _))
    have hc : forEachRow L (transposeData N M)
        (tab L fun i => tab M fun j => tab N fun c =>
            fftFun w N 0 (fun q => input3.getD (i * N * M + j * N + q) 0) c)
        = some (tab L fun i => tab N fun c => tab M fun j =>
            fftFun w N 0 (fun q => input3.getD (i * N * M + j * N + q) 0) c) :=
      forEachRow_tab L _ _ _ (fun i _ => transposeData_tab N M
        (fun j c => fftFun w N 0 (fun q => input3.getD (i * N * M + j * N + q) 0) c))
    have hd : forEachRow L (forEachRow N (fftCPU w (M : ℤ)))
        (tab L fun i => tab N fun c => tab M fun j =>
            fftFun w N 0 (fun q => input3.getD (i * N * M + j * N + q) 0) c)
        = some (tab L fun i => tab N fun c => tab M fun b =>
            fftFun w M 0 (fun r =>
              fftFun w N 0 (fun q => input3.getD (i * N * M + r * N + q) 0) c) b) :=
      forEachRow_tab L _ _ _ (fun i _ => forEachRow_tab N _ _ _
        (fun c _ => fftCPU_tab_fftFun w M 0 _))
    have he : forEachRow L (transposeData M N)
        (tab L fun i => tab N fun c => tab M fun b =>
            fftFun w M 0 (fun r =>
              fftFun w N 0 (fun q => input3.getD (i * N * M + r * N + q) 0) c) b)
        = some (tab L fun i => tab M fun b => tab N fun c =>
            fftFun w M 0 (fun r =>
              fftFun w N 0 (fun q => input3.getD (i * N * M + r * N + q) 0) c) b) :=
      forEachRow_tab L _ _ _ (fun i _ => transposeData_tab M N
        (fun c b => fftFun w M 0 (fun r =>
          fftFun w N 0 (fun q => input3.getD (i * N * M + r * N + q) 0) c) b))
    refine ⟨_, _, _, by rw [ha, Option.some_bind, hb], by simp, ?_, hc, hd, by simp, ?_,
      _, he⟩
    · intro plane hmem
      obtain ⟨i, -, rfl⟩ := mem_tab hmem
      refine ⟨by simp, ?_⟩
      intro row hmem2
      obtain ⟨j, -, rfl⟩ := mem_tab hmem2
      simp
    · intro plane hmem
      obtain ⟨i, -, rfl⟩ := mem_tab hmem
      refine ⟨by simp, ?_⟩
      intro row hmem2
      obtain ⟨j, -, rfl⟩ := mem_tab hmem2
      simp

/-- C19 on the 2 x 1 array `[[1], [2]]` and the configuration `L = M = N = 2`. -/
theorem transposeData_call_sites_witness :
    ([[1], [2]] : List (List ℂ)).length = 2 ∧
    (∀ row, row ∈ ([[1], [2]] : List (List ℂ)) → row.length = 1) ∧
    ([1, 2, 3, 4] : List ℂ).length = 2 * 2 ∧
    ([1, 2, 3, 4, 5, 6, 7, 8] : List ℂ).length = 2 * 2 * 2 ∧
    (∃ new, transposeData 1 2 ([[1], [2]] : List (List ℂ)) = some new ∧ new.length = 1 ∧
      (∀ row, row ∈ new → row.length = 2) ∧
      ∀ i j, i < 1 → j < 2 →
        ∃ x, (new[i]?.bind fun r => r[j]?) = some x ∧
          (([[1], [2]] : List (List ℂ))[j]?.bind fun r => r[i]?) = some x) ∧
    (∃ a1 a2 a3,
      ((allocFill 2 fun i => allocFill 2 fun j => ([1, 2, 3, 4] : List ℂ)[i * 2 + j]?).bind
        (forEachRow 2 (fftCPU
          (fun (k : ℕ) (n : ℤ) => Complex.exp (-2 * Real.pi * Complex.I * k / n)) ((2 : ℕ) : ℤ))))
        = some a1 ∧
      a1.length = 2 ∧ (∀ row, row ∈ a1 → row.length = 2) ∧
      transposeData 2 2 a1 = some a2 ∧
      forEachRow 2 (fftCPU
          (fun (k : ℕ) (n : ℤ) => Complex.exp (-2 * Real.pi * Complex.I * k / n)) ((2 : ℕ) : ℤ)) a2
        = some a3 ∧
      a3.length = 2 ∧ (∀ row, row ∈ a3 → row.length = 2) ∧
      ∃ a4, transposeData 2 2 a3 = some a4) ∧
    (∃ b1 b2 b3,
      ((allocFill 2 fun i => allocFill 2 fun j => allocFill 2 fun k =>
          ([1, 2, 3, 4, 5, 6, 7, 8] : List ℂ)[i * 2 * 2 + j * 2 + k]?).bind
        (forEachRow 2 (forEachRow 2 (fftCPU
          (fun (k : ℕ) (n : ℤ) => Complex.exp (-2 * Real.pi * Complex.I * k / n)) ((2 : ℕ) : ℤ)))))
        = some b1 ∧
      b1.length = 2 ∧
      (∀ plane, plane ∈ b1 → plane.length = 2 ∧ ∀ row, row ∈ plane → row.length = 2) ∧
      forEachRow 2 (transposeData 2 2) b1 = some b2 ∧
      forEachRow 2 (forEachRow 2 (fftCPU
          (fun (k : ℕ) (n : ℤ) => Complex.exp (-2 * Real.pi * Complex.I * k / n)) ((2 : ℕ) : ℤ))) b2
        = some b3 ∧
      b3.length = 2 ∧
      (∀ plane, plane ∈ b3 → plane.length = 2 ∧ ∀ row, row ∈ plane → row.length = 2) ∧
      ∃ b4, forEachRow 2 (transposeData 2 2) b3 = some b4) :=
  ⟨rfl, by simp, rfl, rfl,
    transposeData_call_sites 1 2 [[1], [2]] rfl (by simp) 2 2 2 [1, 2, 3, 4]
      [1, 2, 3, 4, 5, 6, 7, 8] rfl rfl⟩

/-! ## The reference result depends on the input alone -/

/-- For positive dimensions the wrapper returns one and the same
`expectedData`, whatever that buffer held before the call. -/
theorem fftCPUWrapper_total {K : Type} [Add K] [Sub K] [Mul K]
    (w : ℕ → ℤ → K) (L M N : ℕ) (hL : 0 < L) (hM : 0 < M) (hN : 0 < N)
    (inputData : List K) (hin : inputData.length = L * M * N) :
    ∃ out, out.length = L * M * N ∧
      ∀ expectedData : List K, expectedData.length = L * M * N →
        fftCPUWrapper w L M N ((L * M * N : ℕ) : ℤ) inputData expectedData
          = some (inputData, out) := by
  have hpos : 0 < L * M * N := Nat.mul_pos (Nat.mul_pos hL hM) hN
  obtain ⟨d, -⟩ : ∃ d, inputData[0]? = some d :=
    ⟨_, List.getElem?_eq_getElem (show 0 < inputData.length by omega)⟩
  have h1 : inputData = tab (L * M * N) (fun t => inputData.getD t d) := by
    rw [← hin]; exact eq_tab_getD _ d
  by_cases c1 : M = 1
  · obtain ⟨out, hout, hlen⟩ := fftCPU_length w (L * M * N) ((L * M * N : ℕ) : ℤ) inputData
      (by omega) (by omega)
    refine ⟨out, by omega, ?_⟩
    intro expectedData hexp
    rw [fftCPUWrapper, if_pos c1, fftCPUWrapper1D, memcpy_full _ _ _ hin hexp,
      Option.some_bind, hout]
    rfl
  · by_cases c2 : L = 1
    · refine ⟨tab (L * M * N) fun p => fftFun w M d
        (fun r => fftFun w N d (fun c => inputData.getD (r * N + c) d) (p % N)) (p / N),
        ?_, ?_⟩
      rotate_left
      · intro expectedData hexp
        have h2 : expectedData = tab (L * M * N) (fun t => expectedData.getD t d) := by
          rw [← hexp]; exact eq_tab_getD _ d
        have h3 := fftCPUWrapper2D_closed w M N (fftFun w N d) (fftFun w M d)
          (fftCPU_tab_fftFun w N d) (fftCPU_tab_fftFun w M d)
          (fun t => inputData.getD t d) (fun t => expectedData.getD t d)
        have e : L * M * N = M * N := by rw [c2, Nat.one_mul]
        rw [← e, ← h1, ← h2] at h3
        rw [fftCPUWrapper, if_neg c1, if_pos c2, h3]
        rfl
      · simp
    · refine ⟨tab (L * M * N) fun p => fftFun w L d (fun l => fftFun w M d
        (fun r => fftFun w N d (fun q => inputData.getD (l * N * M + r * N + q) d)
          (p % (M * N) % N)) (p % (M * N) / N)) (p / (M * N)), ?_, ?_⟩
      rotate_left
      · intro expectedData hexp
        have h2 : expectedData = tab (L * M * N) (fun t => expectedData.getD t d) := by
          rw [← hexp]; exact eq_tab_getD _ d
        have h3 := fftCPUWrapper3D_closed w L M N (fftFun w N d) (fftFun w M d)
          (fftFun w L d) (fftCPU_tab_fftFun w N d) (fftCPU_tab_fftFun w M d)
          (fftCPU_tab_fftFun w L d)
          (fun t => inputData.getD t d) (fun t => expectedData.getD t d)
        rw [← h1, ← h2] at h3
        rw [fftCPUWrapper, if_neg c1, if_neg c2, h3]
        rfl
      · simp

/-- C20: for positive `L`, `M`, `N` and buffers of `L * M * N` samples, two runs
of `fftCPUWrapper` on the same `inputData` with different prior contents
`before1`, `before2` of `expectedData` both return and end with the same
`expectedData`: every one of its cells is overwritten. -/
theorem fftCPUWrapper_output_determined {K : Type} [Add K] [Sub K] [Mul K]
    (w : ℕ → ℤ → K) (L M N : ℕ) (hL : 0 < L) (hM : 0 < M) (hN : 0 < N)
    (inputData before1 before2 : List K) (hin : inputData.length = L * M * N)
    (h1 : before1.length = L * M * N) (h2 : before2.length = L * M * N) :
    ∃ out, out.length = L * M * N ∧
      fftCPUWrapper w L M N ((L * M * N : ℕ) : ℤ) inputData before1 = some (inputData, out) ∧
      fftCPUWrapper w L M N ((L * M * N : ℕ) : ℤ) inputData before2
        = some (inputData, out) := by
  obtain ⟨out, hlen, hout⟩ := fftCPUWrapper_total w L M N hL hM hN inputData hin
  exact ⟨out, hlen, hout before1 h1, hout before2 h2⟩

/-- C20 on the 2-D path `L = 1`, `M = N = 2`. -/
theorem fftCPUWrapper_output_determined_witness :
    0 < 1 ∧ 0 < 2 ∧ ([1, 2, 3, 4] : List ℂ).length = 1 * 2 * 2 ∧
    ([0, 0, 0, 0] : List ℂ).length = 1 * 2 * 2 ∧ ([9, 8, 7, 6] : List ℂ).length = 1 * 2 * 2 ∧
    ∃ out, out.length = 1 * 2 * 2 ∧
      fftCPUWrapper (fun (k : ℕ) (n : ℤ) => Complex.exp (-2 * Real.pi * Complex.I * k / n))
        1 2 2 ((1 * 2 * 2 : ℕ) : ℤ) [1, 2, 3, 4] [0, 0, 0, 0] = some ([1, 2, 3, 4], out) ∧
      fftCPUWrapper (fun (k : ℕ) (n : ℤ) => Complex.exp (-2 * Real.pi * Complex.I * k / n))
        1 2 2 ((1 * 2 * 2 : ℕ) : ℤ) [1, 2, 3, 4] [9, 8, 7, 6] = some ([1, 2, 3, 4], out) :=
  ⟨by decide, by decide, rfl, rfl, rfl,
    fftCPUWrapper_output_determined
      (fun (k : ℕ) (n : ℤ) => Complex.exp (-2 * Real.pi * Complex.I * k / n))
      1 2 2 (by decide) (by decide) (by decide) [1, 2, 3, 4] [0, 0, 0, 0] [9, 8, 7, 6]
      rfl rfl rfl⟩

/-! ## What rounding changes -/

theorem log_two_eq {q : ℚ} {e : ℤ} (hq : 0 < q) (h1 : (2 : ℚ) ^ e ≤ q)
    (h2 : q < (2 : ℚ) ^ (e + 1)) : Int.log 2 q = e := by
  have a1 : e ≤ Int.log 2 q := (Int.zpow_le_iff_le_log (by norm_num) hq).mp h1
  have a2 : Int.log 2 q < e + 1 := (Int.lt_zpow_iff_log_lt (by norm_num) hq).mp h2
  omega

/-- Evaluation of the rounding of a positive number, from its exponent `e` and
the integer part `f` of its scaled significand. -/
theorem roundNearestEven_pos (p : ℕ) (q : ℚ) (e f : ℤ) (hq : 0 < q)
    (h1 : (2 : ℚ) ^ e ≤ q) (h2 : q < (2 : ℚ) ^ (e + 1))
    (hf1 : (f : ℚ) ≤ q / (2 : ℚ) ^ (e - ((p : ℤ) - 1)))
    (hf2 : q / (2 : ℚ) ^ (e - ((p : ℤ) - 1)) < f + 1) :
    roundNearestEven p q =
      ((if q / (2 : ℚ) ^ (e - ((p : ℤ) - 1)) - f < 1 / 2 then f
        else if 1 / 2 < q / (2 : ℚ) ^ (e - ((p : ℤ) - 1)) - f then f + 1
        else if f % 2 = 0 then f else f + 1 : ℤ) : ℚ) * (2 : ℚ) ^ (e - ((p : ℤ) - 1)) := by
  unfold roundNearestEven
  have hfl : ⌊q / (2 : ℚ) ^ (e - ((p : ℤ) - 1))⌋ = f := Int.floor_eq_iff.mpr ⟨hf1, hf2⟩
  rw [if_neg hq.ne', abs_of_pos hq, log_two_eq hq h1 h2]
  simp only [hfl, if_neg (not_lt.mpr hq.le), one_mul]

theorem roundNearestEven_zero (p : ℕ) : roundNearestEven p 0 = 0 := by
  unfold roundNearestEven
  rw [if_pos rfl]

theorem roundNearestEven_one : roundNearestEven 24 1 = 1 := by
  rw [roundNearestEven_pos 24 _ 0 8388608 (by norm_num) (by norm_num) (by norm_num)
    (by norm_num) (by norm_num)]
  norm_num

/-- The sum `2^24 + 1` is a tie between `2^24` and `2^24 + 2` and rounds to the
even one. -/
theorem roundNearestEven_tie_up : roundNearestEven 24 16777217 = 16777216 := by
  rw [roundNearestEven_pos 24 _ 24 8388608 (by norm_num) (by norm_num) (by norm_num)
    (by norm_num) (by norm_num)]
  norm_num

theorem roundNearestEven_exact : roundNearestEven 24 16777215 = 16777215 := by
  rw [roundNearestEven_pos 24 _ 23 16777215 (by norm_num) (by norm_num) (by norm_num)
    (by norm_num) (by norm_num)]
  norm_num

/-- The sum `1 + 2^-24` is a tie between `1` and `1 + 2^-23` and rounds to 1. -/
theorem roundNearestEven_tie_one : roundNearestEven 24 (16777217 / 16777216) = 1 := by
  rw [roundNearestEven_pos 24 _ 0 8388608 (by norm_num) (by norm_num) (by norm_num)
    (by norm_num) (by norm_num)]
  norm_num

theorem fftCPU_two_gen {K : Type} [Add K] [Sub K] [Mul K] (w : ℕ → ℤ → K) (a b : K) :
    fftCPU w 2 [a, b] = some [a + b * w 0 2, a - b * w 0 2] := by
  simp [fftCPU, allocFill, combine, forLoop, store]

theorem floatComplex_add (a b : FloatComplex) :
    a + b = ⟨roundNearestEven 24 (a.re + b.re), roundNearestEven 24 (a.im + b.im)⟩ := rfl

theorem floatComplex_sub (a b : FloatComplex) :
    a - b = ⟨roundNearestEven 24 (a.re - b.re), roundNearestEven 24 (a.im - b.im)⟩ := rfl

theorem floatComplex_mul (a b : FloatComplex) :
    a * b =
      ⟨roundNearestEven 24
          (roundNearestEven 24 (a.re * b.re) - roundNearestEven 24 (a.im * b.im)),
        roundNearestEven 24
          (roundNearestEven 24 (a.re * b.im) + roundNearestEven 24 (a.im * b.re))⟩ := rfl

/-- C13 as stated fails in single precision: for the `float` values `a = 2^24`,
`b = 1` the code returns `[16777216, 16777215]`, the rounded sum in cell 0,
whereas `a + b = 16777217`. The twiddle factor is `cexpf(0) = 1`, the only one
a call with `n = 2` computes. -/
theorem fftCPU_butterfly_float_counterexample :
    fftCPU (fun _ _ => (⟨1, 0⟩ : FloatComplex)) 2 [⟨16777216, 0⟩, ⟨1, 0⟩]
      = some [⟨16777216, 0⟩, ⟨16777215, 0⟩] ∧
    (⟨16777216, 0⟩ : FloatComplex) ≠ ⟨16777216 + 1, 0 + 0⟩ := by
  constructor
  · rw [fftCPU_two_gen, floatComplex_mul, floatComplex_add, floatComplex_sub]
    norm_num [roundNearestEven_zero, roundNearestEven_one, roundNearestEven_tie_up,
      roundNearestEven_exact]
  · intro h
    have := congrArg FloatComplex.re h
    norm_num at this

/-- C8 as stated fails in single precision. On
`expected = [2818.383056640625, 2^-24]`, `result = [2818.383056640625, -1]` the
subtraction of line 46 rounds `err = 2^-24 + 1` to `1.0f`, the code gets
`N = 1`, a ratio above 69 dB, and returns 0; with the exact `S` and `N` of the
claim, both positive, `10 * log10 (S / N)` is below 69, so the claim says 1.
The double operations are taken exact. -/
theorem check_float_counterexample :
    check (fun z : FloatComplex => (z.re : ℝ)) (fun z : FloatComplex => (z.im : ℝ))
        (Real.logb 10) 2
        [⟨11544097 / 4096, 0⟩, ⟨1 / 16777216, 0⟩] [⟨11544097 / 4096, 0⟩, ⟨-1, 0⟩]
      = some 0 ∧
    (0 : ℝ) < ((11544097 / 4096) ^ 2 + 0 ^ 2) + ((1 / 16777216) ^ 2 + 0 ^ 2) ∧
    (0 : ℝ) < ((11544097 / 4096 - 11544097 / 4096) ^ 2 + (0 - 0) ^ 2)
        + ((1 / 16777216 - (-1)) ^ 2 + (0 - 0) ^ 2) ∧
    ¬ ((69 : ℝ) ≤ 10 * Real.logb 10
        ((((11544097 / 4096) ^ 2 + 0 ^ 2) + ((1 / 16777216) ^ 2 + 0 ^ 2))
          / (((11544097 / 4096 - 11544097 / 4096) ^ 2 + (0 - 0) ^ 2)
              + ((1 / 16777216 - (-1)) ^ 2 + (0 - 0) ^ 2)))) := by
  refine ⟨?_, by norm_num, by norm_num, ?_⟩
  · have hs : snrSums (fun z : FloatComplex => (z.re : ℝ)) (fun z : FloatComplex => (z.im : ℝ))
        2 [⟨11544097 / 4096, 0⟩, ⟨1 / 16777216, 0⟩] [⟨11544097 / 4096, 0⟩, ⟨-1, 0⟩]
        = some ((11544097 / 4096 : ℝ) ^ 2 + (1 / 16777216) ^ 2, 1) := by
      have e2 : (2 : ℤ).toNat = 2 := rfl
      unfold snrSums
      rw [e2]
      simp only [forLoop, List.getElem?_cons_zero, List.getElem?_cons_succ, Option.some_bind,
        floatComplex_sub]
      norm_num [roundNearestEven_zero, roundNearestEven_tie_one]
    have hS : (10 : ℝ) ^ (69 : ℕ) ≤ ((11544097 / 4096 : ℝ) ^ 2 + (1 / 16777216) ^ 2) ^ 10 := by
      norm_num
    have hpos : (0 : ℝ) < (11544097 / 4096 : ℝ) ^ 2 + (1 / 16777216) ^ 2 := by norm_num
    have hlog : (69 : ℝ) ≤ 10 * Real.logb 10
        ((11544097 / 4096 : ℝ) ^ 2 + (1 / 16777216) ^ 2) := by
      have h1 := Real.logb_le_logb_of_le (b := 10) (by norm_num) (by positivity) hS
      rw [Real.logb_pow, Real.logb_pow, Real.logb_self_eq_one (by norm_num)] at h1
      simpa using h1
    unfold check
    rw [hs, Option.some_bind]
    simp only [Dbl.div, Dbl.log10, Dbl.mul, Dbl.lt, ne_eq, one_ne_zero, not_false_eq_true,
      if_true, div_one, hpos, decide_eq_true_eq, not_lt.mpr hlog, if_false]
  · rw [not_le]
    have hpos : (0 : ℝ) < (((11544097 / 4096) ^ 2 + 0 ^ 2) + ((1 / 16777216) ^ 2 + 0 ^ 2))
          / (((11544097 / 4096 - 11544097 / 4096) ^ 2 + (0 - 0) ^ 2)
              + ((1 / 16777216 - (-1)) ^ 2 + (0 - 0) ^ 2)) := by norm_num
    have hS : ((((11544097 / 4096) ^ 2 + 0 ^ 2) + ((1 / 16777216) ^ 2 + 0 ^ 2))
          / (((11544097 / 4096 - 11544097 / 4096) ^ 2 + (0 - 0) ^ 2)
              + ((1 / 16777216 - (-1)) ^ 2 + (0 - 0) ^ 2)) : ℝ) ^ 10 < (10 : ℝ) ^ (69 : ℕ) := by
      norm_num
    have h1 := Real.logb_lt_logb (b := 10) (by norm_num) (by positivity) hS
    rw [Real.logb_pow, Real.logb_pow, Real.logb_self_eq_one (by norm_num)] at h1
    simpa using h1

theorem roundNearestEven_neg (p : ℕ) (q : ℚ) :
    roundNearestEven p (-q) = -roundNearestEven p q := by
  unfold roundNearestEven
  by_cases h0 : q = 0
  · subst h0
    simp
  · rw [if_neg (neg_ne_zero.mpr h0), if_neg h0, abs_neg]
    rcases lt_or_gt_of_ne h0 with h | h
    · have h1 : ¬ (-q < 0) := by linarith
      simp only [if_neg h1, if_pos h]
      ring
    · have h1 : -q < 0 := by linarith
      have h2 : ¬ (q < 0) := by linarith
      simp only [if_pos h1, if_neg h2]
      ring

theorem roundNearestEven_two : roundNearestEven 24 2 = 2 := by
  rw [roundNearestEven_pos 24 _ 1 8388608 (by norm_num) (by norm_num) (by norm_num)
    (by norm_num) (by norm_num)]
  norm_num

/-- C13 (amended): in exact complex arithmetic `fftCPU(2, [a, b]) = [a + b, a - b]`
for all complex `a`, `b`; in particular `[1, 1] -> [2, 0]` and `[1, -1] -> [0, 2]`,
and these two instances also hold in single precision (last two conjuncts, with
the twiddle factor `cexpf(0) = 1`). -/
theorem fftCPU_butterfly :
    (∀ a b : ℂ,
      fftCPU (fun (k : ℕ) (n : ℤ) => Complex.exp (-2 * Real.pi * Complex.I * k / n)) 2 [a, b]
        = some [a + b, a - b]) ∧
    fftCPU (fun (k : ℕ) (n : ℤ) => Complex.exp (-2 * Real.pi * Complex.I * k / n)) 2 [1, 1]
      = some [2, 0] ∧
    fftCPU (fun (k : ℕ) (n : ℤ) => Complex.exp (-2 * Real.pi * Complex.I * k / n)) 2 [1, -1]
      = some [0, 2] ∧
    fftCPU (fun _ _ => (⟨1, 0⟩ : FloatComplex)) 2 [⟨1, 0⟩, ⟨1, 0⟩]
      = some [⟨2, 0⟩, ⟨0, 0⟩] ∧
    fftCPU (fun _ _ => (⟨1, 0⟩ : FloatComplex)) 2 [⟨1, 0⟩, ⟨-1, 0⟩]
      = some [⟨0, 0⟩, ⟨2, 0⟩] := by
  have main : ∀ a b : ℂ,
      fftCPU (fun (k : ℕ) (n : ℤ) => Complex.exp (-2 * Real.pi * Complex.I * k / n)) 2 [a, b]
        = some [a + b, a - b] := by
    intro a b
    rw [fftCPU_two]
    simp
  refine ⟨main, ?_, ?_, ?_, ?_⟩
  · rw [main]
    norm_num
  · rw [main]
    norm_num
  · rw [fftCPU_two_gen, floatComplex_mul, floatComplex_add, floatComplex_sub]
    norm_num [roundNearestEven_zero, roundNearestEven_one, roundNearestEven_two]
  · rw [fftCPU_two_gen, floatComplex_mul, floatComplex_add, floatComplex_sub]
    norm_num [roundNearestEven_zero, roundNearestEven_one, roundNearestEven_two,
      roundNearestEven_neg]

end FftApp
